import Mathlib

/-!
The `emf` package of aws-embedded-metrics-golang.

A shallow embedding of `emf/emf.go`, `emf/units.go` and `emf/logger.go`.

Modelling conventions.

* A Go `map[string]interface{}` is an association list read by first match and
  written by overwrite-or-append (`Bag`).  The bag created by `New` is shared, by
  reference, by the Logger, its default Context and every Context made by
  `NewContext`; the model therefore keeps ONE bag, in the Logger, and a Context
  is loaded from / stored back into the Logger around each Context method.
* A `*Context` returned by `NewContext` is its index in `Logger.contexts`.
* `os.Getenv` is a function `Env` handed to the code that calls it, at the time
  of the call.
* Go slices are lists.  Every slice of length zero built by this package is the
  nil slice (`var s []T`), so the empty list stands for nil.
* `encoding/json` is modelled up to the JSON value it writes (`Json`): object
  members in the order `json.Marshal` writes them (struct fields in declaration
  order, map keys sorted), `omitempty`, nil slices as `null`, and its one
  failure on these value types, a NaN or infinite float64.
* A float64 is its IEEE-754 bit pattern; no float arithmetic is performed by the
  package.
* The sink is the sequence of chunks written to it.
-/

namespace emf

/-! ## emf.go, units.go: the data model -/

/-- The Go type MetricUnit, a string. -/
abbrev MetricUnit := String

def None : MetricUnit := "None"
def Seconds : MetricUnit := "Seconds"
def Microseconds : MetricUnit := "Microseconds"
def Milliseconds : MetricUnit := "Milliseconds"
def Bytes : MetricUnit := "Bytes"
def Kilobytes : MetricUnit := "Kilobytes"
def Megabytes : MetricUnit := "Megabytes"
def Gigabytes : MetricUnit := "Gigabytes"
def Terabytes : MetricUnit := "Terabytes"
def Bits : MetricUnit := "Bits"
def Kilobits : MetricUnit := "Kilobits"
def Megabits : MetricUnit := "Megabits"
def Gigabits : MetricUnit := "Gigabits"
def Terabits : MetricUnit := "Terabits"
def Percent : MetricUnit := "Percent"
def Count : MetricUnit := "Count"
def BytesSecond : MetricUnit := "Bytes/Second"
def KilobytesSecond : MetricUnit := "Kilobytes/Second"
def MegabytesSecond : MetricUnit := "Megabytes/Second"
def GigabytesSecond : MetricUnit := "Gigabytes/Second"
def TerabytesSecond : MetricUnit := "Terabytes/Second"
def BitsSecond : MetricUnit := "Bits/Second"
def KilobitsSecond : MetricUnit := "Kilobits/Second"
def MegabitsSecond : MetricUnit := "Megabits/Second"
def GigabitsSecond : MetricUnit := "Gigabits/Second"
def TerabitsSecond : MetricUnit := "Terabits/Second"
def CountSecond : MetricUnit := "Count/Second"

/-- The constants declared in units.go, in declaration order. -/
def allUnits : List MetricUnit :=
  [None, Seconds, Microseconds, Milliseconds, Bytes, Kilobytes, Megabytes, Gigabytes,
   Terabytes, Bits, Kilobits, Megabits, Gigabits, Terabits, Percent, Count, BytesSecond,
   KilobytesSecond, MegabytesSecond, GigabytesSecond, TerabytesSecond, BitsSecond,
   KilobitsSecond, MegabitsSecond, GigabitsSecond, TerabitsSecond, CountSecond]

/-- DimensionSet as defined in emf.go: a slice of dimension keys. -/
abbrev DimensionSet := List String

/-- MetricDefinition struct of emf.go. -/
structure MetricDefinition where
  Name : String
  Unit : MetricUnit
  deriving DecidableEq, Repr

/-- MetricDirective struct of emf.go. -/
structure MetricDirective where
  Namespace : String
  Dimensions : List DimensionSet
  Metrics : List MetricDefinition
  deriving DecidableEq, Repr

/-- Metadata struct of emf.go. -/
structure Metadata where
  Timestamp : Int
  Metrics : List MetricDirective
  deriving DecidableEq, Repr

/-- A float64, as its IEEE-754 binary64 bit pattern (sign, 11 exponent bits, 52 fraction bits). -/
structure Float64 where
  bits : Nat
  deriving DecidableEq, Repr

/-- Neither NaN nor an infinity: the exponent field is not all ones. -/
def Float64.isFinite (x : Float64) : Bool :=
  (x.bits / 2 ^ 52) % 2 ^ 11 != 2047

/-- The dynamic values this package stores in its `map[string]interface{}`. -/
inductive Value where
  | str (s : String)
  | int (n : Int)
  | float (x : Float64)
  | metadata (m : Metadata)
  deriving DecidableEq, Repr

/-- The value bag: a Go map from string to interface value. -/
abbrev Bag := List (String × Value)

/-- Map read `m[k]` (with the comma-ok flag as the option). -/
def Bag.get : Bag → String → Option Value
  | [], _ => none
  | (k', v') :: m, k => if k' = k then some v' else Bag.get m k

/-- Map write `m[k] = v`. -/
def Bag.set : Bag → String → Value → Bag
  | [], k, v => [(k, v)]
  | (k', v') :: m, k, v => if k' = k then (k, v) :: m else (k', v') :: Bag.set m k v

/-- The keys of the map. -/
def Bag.keys (m : Bag) : List String := m.map Prod.fst

/-! ## encoding/json, as far as this package uses it -/

/-- A JSON value. Object members are kept in the order they are written. -/
inductive Json where
  | null
  | num (n : Int)
  | flt (x : Float64)
  | str (s : String)
  | arr (xs : List Json)
  | obj (members : List (String × Json))

/-- Member lookup in a list of object members (first match). -/
def Json.lookup : List (String × Json) → String → Option Json
  | [], _ => none
  | (k', v') :: ms, k => if k' = k then some v' else Json.lookup ms k

/-- The member named `k` of a JSON object; none for a missing member or a non-object. -/
def Json.get? : Json → String → Option Json
  | .obj ms, k => Json.lookup ms k
  | _, _ => none

/-- The names of the members of a JSON object. -/
def Json.names : Json → List String
  | .obj ms => ms.map Prod.fst
  | _ => []

/-- A slice is written as an array, the nil slice as null. -/
def marshalSlice {α : Type} (f : α → Json) (xs : List α) : Json :=
  if xs.isEmpty then .null else .arr (xs.map f)

/-- A MetricDefinition: `Name`, then `Unit` unless empty (`json:"Unit,omitempty"`). -/
def marshalMetricDefinition (d : MetricDefinition) : Json :=
  .obj ([("Name", .str d.Name)] ++ (if d.Unit = "" then [] else [("Unit", .str d.Unit)]))

/-- A DimensionSet: a slice of strings. -/
def marshalDimensionSet (s : DimensionSet) : Json :=
  marshalSlice Json.str s

/-- A MetricDirective: its three fields in declaration order. -/
def marshalMetricDirective (d : MetricDirective) : Json :=
  .obj [("Namespace", .str d.Namespace),
        ("Dimensions", marshalSlice marshalDimensionSet d.Dimensions),
        ("Metrics", marshalSlice marshalMetricDefinition d.Metrics)]

/-- Metadata: `Timestamp`, then the directives under `CloudWatchMetrics`. -/
def marshalMetadata (m : Metadata) : Json :=
  .obj [("Timestamp", .num m.Timestamp),
        ("CloudWatchMetrics", marshalSlice marshalMetricDirective m.Metrics)]

/-- One interface value; a NaN or infinite float64 is an UnsupportedValueError. -/
def marshalValue : Value → Option Json
  | .str s => some (.str s)
  | .int n => some (.num n)
  | .float x => if x.isFinite then some (.flt x) else none
  | .metadata m => some (marshalMetadata m)

/-- The order json.Marshal sorts map keys by: the byte-wise order of Go strings, which on
UTF-8 text is the lexicographic order of the code points. -/
def keyLE (a b : String) : Bool :=
  decide (a.data ≤ b.data)

/-- Insertion of a member before the first member whose key is not smaller. -/
def insertByKey (e : String × Value) : List (String × Value) → List (String × Value)
  | [] => [e]
  | hd :: tl => if keyLE e.1 hd.1 then e :: hd :: tl else hd :: insertByKey e tl

/-- The map entries sorted by key, as json.Marshal visits them. -/
def sortByKey : List (String × Value) → List (String × Value)
  | [] => []
  | e :: m => insertByKey e (sortByKey m)

/-- The members of sorted entries; the first value that cannot be encoded fails the whole. -/
def marshalEntries : List (String × Value) → Option (List (String × Json))
  | [] => some []
  | (k, v) :: m =>
    match marshalValue v with
    | none => none
    | some j =>
      match marshalEntries m with
      | none => none
      | some js => some ((k, j) :: js)

/-- The call `json.Marshal(l.values)`: none stands for `(nil, err)`. -/
def marshal (m : Bag) : Option Json :=
  (marshalEntries (sortByKey m)).map Json.obj

/-! ## The sink -/

/-- What reaches the sink: the text of a marshalled document, or a line feed. -/
inductive Chunk where
  | text (doc : Json)
  | newline

/-- An io.Writer: which one it is, and what has been written to it through the Logger. -/
structure Writer where
  name : String
  written : List Chunk

/-- The default writer os.Stdout. -/
def Stdout : Writer := { name := "os.Stdout", written := [] }

/-- The call `fmt.Fprintln(w, string(buf))`: the bytes of buf (none when buf is nil), then a
line feed. -/
def Fprintln (w : Writer) (buf : Option Json) : Writer :=
  match buf with
  | some doc => { w with written := w.written ++ [Chunk.text doc, Chunk.newline] }
  | none => { w with written := w.written ++ [Chunk.newline] }

/-! ## logger.go -/

/-- The process environment as os.Getenv reads it: the empty string for an unset variable. -/
abbrev Env := String → String

/-- Context struct of logger.go. The field `values` is the map shared with the Logger. -/
structure Context where
  metricDirective : MetricDirective
  values : Bag

/-- Logger struct of logger.go. `contexts` holds the directives of the Contexts the pointers
of the Go slice point to, in creation order; each of them has `values` as its map. -/
structure Logger where
  out : Writer
  timestamp : Int
  defaultContext : MetricDirective
  contexts : List MetricDirective
  values : Bag
  withoutDimensions : Bool

/-- LoggerOption of logger.go: a function that customizes a logger. -/
abbrev LoggerOption := Logger → Logger

/-- A time.Time, as the int64 its method UnixNano returns. -/
structure Time where
  UnixNano : Int

/-- The constant time.Millisecond, in nanoseconds. -/
def Millisecond : Int := 1000000

/-- The call strings.Contains(s, substr). -/
def stringsContains (s substr : String) : Bool :=
  (List.range (s.data.length + 1)).any (fun i => substr.data.isPrefixOf (s.data.drop i))

def WithWriter (w : Writer) : LoggerOption :=
  fun l => { l with out := w }

def WithTimestamp (t : Time) : LoggerOption :=
  fun l => { l with timestamp := t.UnixNano.tdiv Millisecond }

def WithoutDimensions : LoggerOption :=
  fun l => { l with withoutDimensions := true }

def newContext (env : Env) (values : Bag) (withoutDimensions : Bool) : Context :=
  let r : List DimensionSet × Bag :=
    if !withoutDimensions then
      -- set default dimensions for lambda function
      let fnName := env "AWS_LAMBDA_FUNCTION_NAME"
      if fnName != "" then
        ([["ServiceName", "ServiceType"]],
         (values.set "ServiceType" (.str "AWS::Lambda::Function")).set "ServiceName"
           (.str fnName))
      else ([], values)
    else ([], values)
  { metricDirective := { Namespace := "aws-embedded-metrics", Dimensions := r.1, Metrics := [] },
    values := r.2 }

def Context.put (c : Context) (name : String) (value : Value) (unit : MetricUnit) : Context :=
  { metricDirective :=
      { c.metricDirective with
        Metrics := c.metricDirective.Metrics ++ [{ Name := name, Unit := unit }] },
    values := c.values.set name value }

def Context.Namespace (c : Context) (ns : String) : Context :=
  { c with metricDirective := { c.metricDirective with Namespace := ns } }

def Context.Dimension (c : Context) (key value : String) : Context :=
  { metricDirective :=
      { c.metricDirective with Dimensions := c.metricDirective.Dimensions ++ [[key]] },
    values := c.values.set key (.str value) }

/-- Dimension struct of logger.go. -/
structure Dimension where
  Key : String
  Value : String
  deriving DecidableEq, Repr

def NewDimension (key value : String) : Dimension :=
  { Key := key, Value := value }

/-- The range loop shared by both DimensionSet methods: the set built and the map written. -/
def dimensionLoop (dimensions : List Dimension) (set : DimensionSet) (values : Bag) :
    DimensionSet × Bag :=
  dimensions.foldl (fun acc d => (acc.1 ++ [d.Key], acc.2.set d.Key (.str d.Value)))
    (set, values)

def Context.DimensionSet (c : Context) (dimensions : List emf.Dimension) : Context :=
  let r := dimensionLoop dimensions [] c.values
  { metricDirective :=
      { c.metricDirective with Dimensions := c.metricDirective.Dimensions ++ [r.1] },
    values := r.2 }

def Context.Metric (c : Context) (name : String) (value : Int) : Context :=
  c.put name (.int value) None

def Context.MetricFloat (c : Context) (name : String) (value : Float64) : Context :=
  c.put name (.float value) None

def Context.MetricAs (c : Context) (name : String) (value : Int) (unit : MetricUnit) : Context :=
  c.put name (.int value) unit

def Context.MetricFloatAs (c : Context) (name : String) (value : Float64) (unit : MetricUnit) :
    Context :=
  c.put name (.float value) unit

/-- The default Context of the Logger: the field `defaultContext` with the shared map. -/
def Logger.default (l : Logger) : Context :=
  { metricDirective := l.defaultContext, values := l.values }

/-- A method call on `l.defaultContext`: the Context is written back in place, and the map it
wrote to is the Logger's. -/
def Logger.onDefault (l : Logger) (f : Context → Context) : Logger :=
  let c := f l.default
  { l with defaultContext := c.metricDirective, values := c.values }

/-- A method call on the Context that the pointer number `i` of `l.contexts` points to. An
index that names no Context is no call and leaves the Logger as it is. -/
def Logger.onContext (l : Logger) (i : Nat) (f : Context → Context) : Logger :=
  match l.contexts.get? i with
  | none => l
  | some d =>
    let c := f { metricDirective := d, values := l.values }
    { l with contexts := l.contexts.set i c.metricDirective, values := c.values }

def New (env : Env) (now : Time) (opts : List LoggerOption) : Logger :=
  let l : Logger :=
    { out := Stdout,
      timestamp := now.UnixNano.tdiv Millisecond,
      defaultContext := { Namespace := "", Dimensions := [], Metrics := [] },
      contexts := [],
      values := [],
      withoutDimensions := false }
  let l := opts.foldl (fun l opt => opt l) l
  let values : Bag := []
  let values :=
    if !l.withoutDimensions then
      -- set default properties for lambda function
      let fnName := env "AWS_LAMBDA_FUNCTION_NAME"
      if fnName != "" then
        (((values.set "executionEnvironment" (.str (env "AWS_EXECUTION_ENV"))).set "memorySize"
          (.str (env "AWS_LAMBDA_FUNCTION_MEMORY_SIZE"))).set "functionVersion"
          (.str (env "AWS_LAMBDA_FUNCTION_VERSION"))).set "logStreamId"
          (.str (env "AWS_LAMBDA_LOG_STREAM_NAME"))
      else values
    else values
  -- only collect traces which have been sampled
  let amznTraceID := env "_X_AMZN_TRACE_ID"
  let values :=
    if stringsContains amznTraceID "Sampled=1" then values.set "traceId" (.str amznTraceID)
    else values
  let c := newContext env values l.withoutDimensions
  { l with values := c.values, defaultContext := c.metricDirective }

def Logger.Namespace (l : Logger) (ns : String) : Logger :=
  l.onDefault (fun c => c.Namespace ns)

def Logger.Property (l : Logger) (key value : String) : Logger :=
  { l with values := l.values.set key (.str value) }

def Logger.Dimension (l : Logger) (key value : String) : Logger :=
  { l with
    defaultContext :=
      { l.defaultContext with Dimensions := l.defaultContext.Dimensions ++ [[key]] },
    values := l.values.set key (.str value) }

def Logger.DimensionSet (l : Logger) (dimensions : List emf.Dimension) : Logger :=
  let r := dimensionLoop dimensions [] l.values
  { l with
    defaultContext :=
      { l.defaultContext with Dimensions := l.defaultContext.Dimensions ++ [r.1] },
    values := r.2 }

def Logger.Metric (l : Logger) (name : String) (value : Int) : Logger :=
  l.onDefault (fun c => c.put name (.int value) None)

def Logger.MetricFloat (l : Logger) (name : String) (value : Float64) : Logger :=
  l.onDefault (fun c => c.put name (.float value) None)

def Logger.MetricAs (l : Logger) (name : String) (value : Int) (unit : MetricUnit) : Logger :=
  l.onDefault (fun c => c.put name (.int value) unit)

/-- The map `m` is given as its entries in the order the range loop visits them. -/
def Logger.MetricsAs (l : Logger) (m : List (String × Int)) (unit : MetricUnit) : Logger :=
  m.foldl (fun l e => l.onDefault (fun c => c.put e.1 (.int e.2) unit)) l

def Logger.Metrics (l : Logger) (m : List (String × Int)) : Logger :=
  l.MetricsAs m None

def Logger.MetricFloatAs (l : Logger) (name : String) (value : Float64) (unit : MetricUnit) :
    Logger :=
  l.onDefault (fun c => c.put name (.float value) unit)

/-- The map `m` is given as its entries in the order the range loop visits them. -/
def Logger.MetricsFloatAs (l : Logger) (m : List (String × Float64)) (unit : MetricUnit) :
    Logger :=
  m.foldl (fun l e => l.onDefault (fun c => c.put e.1 (.float e.2) unit)) l

def Logger.MetricsFloat (l : Logger) (m : List (String × Float64)) : Logger :=
  l.MetricsFloatAs m None

/-- The slice `metrics` that Log collects: the default directive, then the loop over
`l.contexts`, each appended when it has a metric definition. -/
def Logger.collect (l : Logger) : List MetricDirective :=
  let metrics : List MetricDirective := []
  let metrics :=
    if l.defaultContext.Metrics.length > 0 then metrics ++ [l.defaultContext] else metrics
  l.contexts.foldl (fun metrics v => if v.Metrics.length > 0 then metrics ++ [v] else metrics)
    metrics

def Logger.Log (l : Logger) : Logger :=
  let metrics := l.collect
  if metrics.length = 0 then l
  else
    let values := l.values.set "_aws" (.metadata { Timestamp := l.timestamp, Metrics := metrics })
    let buf := marshal values
    { l with values := values, out := Fprintln l.out buf }

/-- NewContext: the Logger afterwards and the Context returned, as its index. -/
def Logger.NewContext (env : Env) (l : Logger) : Logger × Nat :=
  let c := newContext env l.values l.withoutDimensions
  ({ l with contexts := l.contexts ++ [c.metricDirective], values := c.values },
   l.contexts.length)

/-! ## The public operations as a transition system -/

/-- The exported methods of Logger and of Context. A Context method carries the index of the
Context it is called on. -/
inductive Op where
  | Namespace (ns : String)
  | Property (key value : String)
  | Dimension (key value : String)
  | DimensionSet (dimensions : List emf.Dimension)
  | Metric (name : String) (value : Int)
  | Metrics (m : List (String × Int))
  | MetricFloat (name : String) (value : Float64)
  | MetricsFloat (m : List (String × Float64))
  | MetricAs (name : String) (value : Int) (unit : MetricUnit)
  | MetricsAs (m : List (String × Int)) (unit : MetricUnit)
  | MetricFloatAs (name : String) (value : Float64) (unit : MetricUnit)
  | MetricsFloatAs (m : List (String × Float64)) (unit : MetricUnit)
  | Log
  | NewContext
  | ContextNamespace (i : Nat) (ns : String)
  | ContextDimension (i : Nat) (key value : String)
  | ContextDimensionSet (i : Nat) (dimensions : List emf.Dimension)
  | ContextMetric (i : Nat) (name : String) (value : Int)
  | ContextMetricFloat (i : Nat) (name : String) (value : Float64)
  | ContextMetricAs (i : Nat) (name : String) (value : Int) (unit : MetricUnit)
  | ContextMetricFloatAs (i : Nat) (name : String) (value : Float64) (unit : MetricUnit)

/-- One call, made while the environment is `env`. -/
def step (env : Env) (l : Logger) : Op → Logger
  | .Namespace ns => l.Namespace ns
  | .Property key value => l.Property key value
  | .Dimension key value => l.Dimension key value
  | .DimensionSet dimensions => l.DimensionSet dimensions
  | .Metric name value => l.Metric name value
  | .Metrics m => l.Metrics m
  | .MetricFloat name value => l.MetricFloat name value
  | .MetricsFloat m => l.MetricsFloat m
  | .MetricAs name value unit => l.MetricAs name value unit
  | .MetricsAs m unit => l.MetricsAs m unit
  | .MetricFloatAs name value unit => l.MetricFloatAs name value unit
  | .MetricsFloatAs m unit => l.MetricsFloatAs m unit
  | .Log => l.Log
  | .NewContext => (l.NewContext env).1
  | .ContextNamespace i ns => l.onContext i (fun c => c.Namespace ns)
  | .ContextDimension i key value => l.onContext i (fun c => c.Dimension key value)
  | .ContextDimensionSet i dimensions => l.onContext i (fun c => c.DimensionSet dimensions)
  | .ContextMetric i name value => l.onContext i (fun c => c.Metric name value)
  | .ContextMetricFloat i name value => l.onContext i (fun c => c.MetricFloat name value)
  | .ContextMetricAs i name value unit => l.onContext i (fun c => c.MetricAs name value unit)
  | .ContextMetricFloatAs i name value unit =>
    l.onContext i (fun c => c.MetricFloatAs name value unit)

/-- A sequence of calls, each with the environment it is made in. -/
def run (l : Logger) (calls : List (Env × Op)) : Logger :=
  calls.foldl (fun l c => step c.1 l c.2) l

/-- The three options logger.go exports. -/
def IsOption (o : LoggerOption) : Prop :=
  (∃ w, o = WithWriter w) ∨ (∃ t, o = WithTimestamp t) ∨ o = WithoutDimensions

/-- The states a Logger made by New can be brought to by calls of the exported methods. -/
def Reachable (l : Logger) : Prop :=
  ∃ (env : Env) (now : Time) (opts : List LoggerOption) (calls : List (Env × Op)),
    (∀ o ∈ opts, IsOption o) ∧ l = run (New env now opts) calls

/-! ## The specification's vocabulary -/

/-- The directives of a Logger in the order of the specification: the default one, then the
extra ones in creation order. -/
def Logger.directives (l : Logger) : List MetricDirective :=
  l.defaultContext :: l.contexts

/-- The directives with at least one metric definition, in order. -/
def Logger.nonEmptyDirectives (l : Logger) : List MetricDirective :=
  l.directives.filter (fun d => !d.Metrics.isEmpty)

/-- A value other than a NaN or infinite float64. -/
def Value.isFinite : Value → Bool
  | .float x => x.isFinite
  | _ => true

/-- No float64 stored in the bag is a NaN or an infinity. -/
def Bag.allFinite (m : Bag) : Prop :=
  ∀ e ∈ m, e.2.isFinite = true

instance Bag.decidableAllFinite (m : Bag) : Decidable m.allFinite :=
  inferInstanceAs (Decidable (∀ e ∈ m, e.2.isFinite = true))

/-- The writes to the value bag that the specification ascribes to one call, in order. A
Context method on an index that names no Context writes nothing. -/
def Op.writes (env : Env) (l : Logger) : Op → List (String × Value)
  | .Namespace _ => []
  | .Property key value => [(key, .str value)]
  | .Dimension key value => [(key, .str value)]
  | .DimensionSet dimensions => dimensions.map (fun d => (d.Key, .str d.Value))
  | .Metric name value => [(name, .int value)]
  | .Metrics m => m.map (fun e => (e.1, .int e.2))
  | .MetricFloat name value => [(name, .float value)]
  | .MetricsFloat m => m.map (fun e => (e.1, .float e.2))
  | .MetricAs name value _ => [(name, .int value)]
  | .MetricsAs m _ => m.map (fun e => (e.1, .int e.2))
  | .MetricFloatAs name value _ => [(name, .float value)]
  | .MetricsFloatAs m _ => m.map (fun e => (e.1, .float e.2))
  | .Log =>
    if l.nonEmptyDirectives.isEmpty then []
    else [("_aws", .metadata { Timestamp := l.timestamp, Metrics := l.nonEmptyDirectives })]
  | .NewContext =>
    if !l.withoutDimensions && env "AWS_LAMBDA_FUNCTION_NAME" != "" then
      [("ServiceType", .str "AWS::Lambda::Function"),
       ("ServiceName", .str (env "AWS_LAMBDA_FUNCTION_NAME"))]
    else []
  | .ContextNamespace _ _ => []
  | .ContextDimension i key value => if i < l.contexts.length then [(key, .str value)] else []
  | .ContextDimensionSet i dimensions =>
    if i < l.contexts.length then dimensions.map (fun d => (d.Key, .str d.Value)) else []
  | .ContextMetric i name value => if i < l.contexts.length then [(name, .int value)] else []
  | .ContextMetricFloat i name value =>
    if i < l.contexts.length then [(name, .float value)] else []
  | .ContextMetricAs i name value _ =>
    if i < l.contexts.length then [(name, .int value)] else []
  | .ContextMetricFloatAs i name value _ =>
    if i < l.contexts.length then [(name, .float value)] else []

/-- The calls that declare metrics: every Metric form, on the Logger or on a Context. -/
def Op.isMetric : Op → Bool
  | .Metric _ _ | .Metrics _ | .MetricFloat _ _ | .MetricsFloat _ | .MetricAs _ _ _
  | .MetricsAs _ _ | .MetricFloatAs _ _ _ | .MetricsFloatAs _ _ | .ContextMetric _ _ _
  | .ContextMetricFloat _ _ _ | .ContextMetricAs _ _ _ _ | .ContextMetricFloatAs _ _ _ _ => true
  | _ => false

/-- The writes of a sequence of calls, in the order they are made. -/
def writesOf : Logger → List (Env × Op) → List (String × Value)
  | _, [] => []
  | l, c :: calls => Op.writes c.1 l c.2 ++ writesOf (step c.1 l c.2) calls

/-- The value of the last write to key `k` in a sequence of writes, if there is one. -/
def lastWrite : List (String × Value) → String → Option Value
  | [], _ => none
  | (k', v) :: ws, k =>
    match lastWrite ws k with
    | some v' => some v'
    | none => if k' = k then some v else none

/-- A bag after a sequence of writes, as the specification describes it: last write wins. -/
def Bag.after (m : Bag) (ws : List (String × Value)) (k : String) : Option Value :=
  match lastWrite ws k with
  | some v => some v
  | none => m.get k

/-- A bag after a sequence of map writes `m[k] = v`. -/
def Bag.write (m : Bag) (ws : List (String × Value)) : Bag :=
  ws.foldl (fun m w => m.set w.1 w.2) m

/-- Every metric name and every dimension key of the directive is a key of the bag. -/
def MetricDirective.Covered (d : MetricDirective) (m : Bag) : Prop :=
  (∀ md ∈ d.Metrics, md.Name ∈ m.keys) ∧ (∀ s ∈ d.Dimensions, ∀ k ∈ s, k ∈ m.keys)

/-- Every directive of the Logger is covered by the shared bag. -/
def Logger.Covered (l : Logger) : Prop :=
  ∀ d ∈ l.directives, d.Covered l.values

/-- The effect the specification ascribes to a bulk metric call with the map `entries` (its
entries listed once each, in any order) and the unit `unit`: the old metric definitions stay
as a prefix, what is appended is one definition per entry, in some order; the bag holds the
value of every entry under its key and is unchanged at every other key; nothing else of the
Logger changes. -/
def BulkEffect (l l' : Logger) (entries : List (String × Value)) (unit : MetricUnit) : Prop :=
  (∃ appended : List MetricDefinition,
    l'.defaultContext.Metrics = l.defaultContext.Metrics ++ appended ∧
    appended.Perm (entries.map (fun e => { Name := e.1, Unit := unit }))) ∧
  (∀ k v, (k, v) ∈ entries → l'.values.get k = some v) ∧
  (∀ k, k ∉ entries.map Prod.fst → l'.values.get k = l.values.get k) ∧
  l'.defaultContext.Namespace = l.defaultContext.Namespace ∧
  l'.defaultContext.Dimensions = l.defaultContext.Dimensions ∧
  l'.contexts = l.contexts ∧
  l'.timestamp = l.timestamp ∧
  l'.out = l.out ∧
  l'.withoutDimensions = l.withoutDimensions

/-- The directive `d'` has the dimension sets and the metric definitions of `d`, in the same
order, possibly followed by more. -/
def MetricDirective.Extends (d d' : MetricDirective) : Prop :=
  d.Dimensions <+: d'.Dimensions ∧ d.Metrics <+: d'.Metrics

/-- Every directive of `l`, default or extra, is still there in `l'`, at the same place, and
extended. -/
def Logger.Extends (l l' : Logger) : Prop :=
  l.defaultContext.Extends l'.defaultContext ∧
  ∀ i d, l.contexts.get? i = some d → ∃ d', l'.contexts.get? i = some d' ∧ d.Extends d'

/-- The Context method of the same name as a Logger method, called on the Context number `i`;
none for the Logger methods that Context does not have. -/
def Op.onContext (i : Nat) : Op → Option Op
  | .Namespace ns => some (.ContextNamespace i ns)
  | .Dimension key value => some (.ContextDimension i key value)
  | .DimensionSet dimensions => some (.ContextDimensionSet i dimensions)
  | .Metric name value => some (.ContextMetric i name value)
  | .MetricFloat name value => some (.ContextMetricFloat i name value)
  | .MetricAs name value unit => some (.ContextMetricAs i name value unit)
  | .MetricFloatAs name value unit => some (.ContextMetricFloatAs i name value unit)
  | _ => none

/-! ## Concrete inputs -/

/-- An environment with no variable set. -/
def envEmpty : Env := fun _ => ""

/-- An environment of a Lambda function named `some-func-name`. -/
def envLambda : Env := fun k =>
  if k = "AWS_LAMBDA_FUNCTION_NAME" then "some-func-name"
  else if k = "AWS_EXECUTION_ENV" then "golang"
  else if k = "AWS_LAMBDA_FUNCTION_MEMORY_SIZE" then "128"
  else if k = "AWS_LAMBDA_FUNCTION_VERSION" then "1"
  else if k = "AWS_LAMBDA_LOG_STREAM_NAME" then "log/stream"
  else ""

/-- A construction time: 1700000000123456789 ns after the epoch. -/
def sampleTime : Time := { UnixNano := 1700000000123456789 }

/-- A fresh Logger in the empty environment: `New()`. -/
def freshLogger : Logger := New envEmpty sampleTime []

/-- A quiet NaN. -/
def nan : Float64 := { bits := 0x7FF8000000000001 }

/-- The state of the test `new context, no metrics set`, with a property and a dimension
added: a Logger, one extra Context with namespace galaxy, no metric. -/
def loggerNoMetrics : Logger :=
  (((((freshLogger.NewContext envEmpty).1.onContext 0 (fun c => c.Namespace "galaxy")).Property
    "aaa" "666").Dimension "a" "b").onContext 0 (fun c => c.Dimension "CC" "DD"))

/-- The call `MetricFloat("foo", math.NaN())` on a fresh Logger. -/
def loggerNaN : Logger := freshLogger.MetricFloat "foo" nan

/-- The multi-context scenario of the specification: a new Context with namespace galaxy and
metric bar in Count, a metric foo on the default Context, and a Context left without metric
in between. -/
def loggerTwoContexts : Logger :=
  ((((freshLogger.NewContext envEmpty).1.NewContext envEmpty).1.onContext 1
    (fun c => (c.Namespace "galaxy").MetricAs "bar" 666 Count)).Metric "foo" 33)

/-- A metric foo declared with value 33, then a property written under the same key. -/
def loggerOverwritten : Logger := (freshLogger.Metric "foo" 33).Property "foo" "bar"

/-- The float64 33.66. -/
def f3366 : Float64 := { bits := 0x4040D47AE147AE14 }

/-- Calls made after a first metric call: a new Context, a float metric and a dimension on
it, a property, and a bulk call on the Logger. -/
def laterCalls : List (Env × Op) :=
  [(envEmpty, .NewContext),
   (envLambda, .ContextMetricFloatAs 0 "lat" f3366 Milliseconds),
   (envEmpty, .ContextDimension 0 "CC" "DD"),
   (envEmpty, .Property "aaa" "666"),
   (envEmpty, .MetricsAs [("x", 1), ("y", 2)] Count)]

/-- The dimension scenario of the specification: `Dimension("a","b").Metric("c",11)`. -/
def loggerDimension : Logger := (freshLogger.Dimension "a" "b").Metric "c" 11

/-- An environment that agrees with envLambda on the function name only. -/
def envOther : Env := fun k =>
  if k = "AWS_LAMBDA_FUNCTION_NAME" then "some-func-name" else "other"

/-- The last of the pairs that has key `k`, if there is one. -/
def lastPair (pairs : List Dimension) (k : String) : Option Dimension :=
  pairs.reverse.find? (fun d => d.Key == k)

/-- A Logger built in a Lambda environment with a timestamp option, after a metric call, the
later calls, and a Log. -/
def loggerReached : Logger :=
  run (New envLambda sampleTime [WithTimestamp { UnixNano := 5000000 }])
    ((envLambda, .Metric "foo" 33) :: laterCalls ++ [(envEmpty, .Log)])

/-- The environment of the test `sampled trace`. -/
def envSampled : Env := fun k => if k = "_X_AMZN_TRACE_ID" then "foo,Sampled=1,bar" else ""

/-- The environment of the test `not sampled trace`. -/
def envNotSampled : Env := fun k => if k = "_X_AMZN_TRACE_ID" then "foo" else ""

/-- The test `default and custom contexts, multiple dimensions/dimension sets`, before its
last call on the new Context. -/
def loggerCustomContext : Logger :=
  run freshLogger
    [(envEmpty, .NewContext),
     (envEmpty, .ContextDimension 0 "CC" "DD"),
     (envEmpty, .Dimension "AA" "BB"),
     (envEmpty, .MetricAs "bar" 666 BytesSecond)]

/-- A caller stores a property under the reserved key, then declares a metric. -/
def loggerReservedKey : Logger := (freshLogger.Property "_aws" "mine").Metric "foo" 33

/-! ## The value bag -/

theorem Bag.get_set (m : Bag) (k : String) (v : Value) (k' : String) :
    (m.set k v).get k' = if k = k' then some v else m.get k' := by
  induction m with
  | nil => simp [Bag.set, Bag.get]
  | cons e m ih =>
    obtain ⟨a, b⟩ := e
    by_cases hak : a = k
    · subst hak
      by_cases hak' : a = k' <;> simp [Bag.set, Bag.get, hak']
    · by_cases hak' : a = k'
      · subst hak'
        have hne : ¬ k = a := fun h => hak h.symm
        simp [Bag.set, Bag.get, hak, hne]
      · simp [Bag.set, Bag.get, hak, hak', ih]

theorem Bag.get_set_self (m : Bag) (k : String) (v : Value) : (m.set k v).get k = some v := by
  simp [Bag.get_set]

theorem Bag.get_set_other (m : Bag) (k : String) (v : Value) (k' : String) (h : k' ≠ k) :
    (m.set k v).get k' = m.get k' := by
  have hne : ¬ k = k' := fun e => h e.symm
  simp [Bag.get_set, hne]

theorem Bag.mem_keys_iff (m : Bag) (k : String) : k ∈ m.keys ↔ (m.get k).isSome = true := by
  induction m with
  | nil => simp [Bag.keys, Bag.get]
  | cons e m ih =>
    obtain ⟨a, b⟩ := e
    by_cases hak : a = k
    · simp [Bag.keys, Bag.get, hak]
    · have hne : ¬ k = a := fun h => hak h.symm
      simp only [Bag.keys] at ih
      simp [Bag.keys, Bag.get, hak, hne, ih]

theorem Bag.mem_keys_set_self (m : Bag) (k : String) (v : Value) : k ∈ (m.set k v).keys := by
  simp [Bag.mem_keys_iff, Bag.get_set_self]

theorem Bag.mem_keys_set (m : Bag) (k : String) (v : Value) (k' : String) (h : k' ∈ m.keys) :
    k' ∈ (m.set k v).keys := by
  rw [Bag.mem_keys_iff] at h ⊢
  rw [Bag.get_set]
  split
  · rfl
  · exact h

/-- Every entry of a bag after a write is the entry written or an entry of the bag before. -/
theorem Bag.mem_set (m : Bag) (k : String) (v : Value) (e : String × Value)
    (h : e ∈ m.set k v) : e = (k, v) ∨ e ∈ m := by
  induction m with
  | nil => simpa [Bag.set] using h
  | cons hd m ih =>
    obtain ⟨a, b⟩ := hd
    by_cases hak : a = k
    · simp only [Bag.set, hak, if_true, List.mem_cons] at h
      rcases h with h | h
      · exact Or.inl h
      · exact Or.inr (List.mem_cons_of_mem _ h)
    · simp only [Bag.set, hak, if_false, List.mem_cons] at h
      rcases h with h | h
      · exact Or.inr (by simp [h])
      · rcases ih h with h | h
        · exact Or.inl h
        · exact Or.inr (List.mem_cons_of_mem _ h)

/-! ## Log: the directives collected -/

theorem collect_loop (cs : List MetricDirective) (acc : List MetricDirective) :
    cs.foldl (fun metrics v => if v.Metrics.length > 0 then metrics ++ [v] else metrics) acc
      = acc ++ cs.filter (fun d => !d.Metrics.isEmpty) := by
  induction cs generalizing acc with
  | nil => simp
  | cons c cs ih =>
    rw [List.foldl_cons, ih]
    cases hc : c.Metrics with
    | nil => simp [List.filter_cons, hc]
    | cons x xs => simp [List.filter_cons, hc]

/-- The slice Log collects is the list of the directives that have a metric definition. -/
theorem Logger.collect_eq (l : Logger) : l.collect = l.nonEmptyDirectives := by
  unfold Logger.collect Logger.nonEmptyDirectives Logger.directives
  rw [collect_loop]
  cases hc : l.defaultContext.Metrics with
  | nil => simp [List.filter_cons, hc]
  | cons x xs => simp [List.filter_cons, hc]

theorem Logger.nonEmptyDirectives_eq_nil (l : Logger) (h0 : l.defaultContext.Metrics = [])
    (h : ∀ d ∈ l.contexts, d.Metrics = []) : l.nonEmptyDirectives = [] := by
  unfold Logger.nonEmptyDirectives Logger.directives
  rw [List.filter_eq_nil_iff]
  intro d hd
  rcases List.mem_cons.mp hd with rfl | hd
  · simp [h0]
  · simp [h d hd]

theorem Logger.Log_of_nil (l : Logger) (h : l.nonEmptyDirectives = []) : l.Log = l := by
  unfold Logger.Log
  simp [Logger.collect_eq, h]

/-! ## C1 -/

/-- C1. When the default directive and every extra directive have no metric definition,
whatever else the Logger holds, Log writes nothing: the sink is exactly as before, with no
document and no line feed added (indeed the whole Logger is unchanged). -/
theorem C1_log_without_metrics_writes_nothing (l : Logger)
    (h0 : l.defaultContext.Metrics = []) (h : ∀ d ∈ l.contexts, d.Metrics = []) :
    l.Log.out.written = l.out.written ∧ l.Log = l := by
  have hl := Logger.Log_of_nil l (Logger.nonEmptyDirectives_eq_nil l h0 h)
  exact ⟨by rw [hl], hl⟩

theorem C1_witness :
    loggerNoMetrics.defaultContext.Metrics = [] ∧
    (∀ d ∈ loggerNoMetrics.contexts, d.Metrics = []) ∧
    loggerNoMetrics.contexts.length = 1 ∧
    loggerNoMetrics.Log.out.written = loggerNoMetrics.out.written ∧
    loggerNoMetrics.Log = loggerNoMetrics :=
  ⟨by decide, by decide, by decide,
   C1_log_without_metrics_writes_nothing loggerNoMetrics (by decide) (by decide)⟩

/-! ## json.Marshal of the bag -/

theorem get_insertByKey (e : String × Value) (m : Bag) (k : String) :
    Bag.get (insertByKey e m) k = if e.1 = k then some e.2 else Bag.get m k := by
  obtain ⟨a, b⟩ := e
  induction m with
  | nil => simp [insertByKey, Bag.get]
  | cons hd tl ih =>
    obtain ⟨c, d⟩ := hd
    simp only at ih ⊢
    by_cases hle : keyLE a c = true
    · simp [insertByKey, hle, Bag.get]
    · have hne : c ≠ a := by
        intro heq
        apply hle
        simp [keyLE, heq]
      by_cases hk : a = k
      · subst hk
        simp [insertByKey, hle, Bag.get, ih, hne]
      · simp [insertByKey, hle, Bag.get, ih, hk]

/-- Sorting the entries does not change what is read under a key. -/
theorem get_sortByKey (m : Bag) (k : String) : Bag.get (sortByKey m) k = Bag.get m k := by
  induction m with
  | nil => rfl
  | cons e m ih =>
    obtain ⟨a, b⟩ := e
    simp [sortByKey, get_insertByKey, ih, Bag.get]

theorem mem_insertByKey (e : String × Value) (m : Bag) (x : String × Value) :
    x ∈ insertByKey e m ↔ x = e ∨ x ∈ m := by
  induction m with
  | nil => simp [insertByKey]
  | cons hd tl ih =>
    by_cases hle : keyLE e.1 hd.1 = true
    · simp [insertByKey, hle]
    · simp only [insertByKey, hle, List.mem_cons, ih]
      simp only [Bool.false_eq_true, if_false, List.mem_cons, ih]
      tauto

theorem mem_sortByKey (m : Bag) (x : String × Value) : x ∈ sortByKey m ↔ x ∈ m := by
  induction m with
  | nil => simp [sortByKey]
  | cons e m ih => simp [sortByKey, mem_insertByKey, ih]

theorem marshalValue_of_finite (v : Value) (h : v.isFinite = true) :
    ∃ j, marshalValue v = some j := by
  cases v with
  | str s => exact ⟨_, rfl⟩
  | int n => exact ⟨_, rfl⟩
  | float x =>
    have hx : x.isFinite = true := h
    exact ⟨.flt x, by simp [marshalValue, hx]⟩
  | metadata md => exact ⟨_, rfl⟩

theorem marshalEntries_of_finite (es : List (String × Value))
    (h : ∀ e ∈ es, e.2.isFinite = true) :
    ∃ js, marshalEntries es = some js := by
  induction es with
  | nil => exact ⟨[], rfl⟩
  | cons e es ih =>
    obtain ⟨a, v⟩ := e
    obtain ⟨js, hjs⟩ := ih (fun e he => h e (List.mem_cons_of_mem _ he))
    obtain ⟨j, hj⟩ := marshalValue_of_finite v (h (a, v) (List.mem_cons_self _ _))
    exact ⟨(a, j) :: js, by simp [marshalEntries, hj, hjs]⟩

theorem marshalEntries_cons_some (a : String) (v : Value) (es : List (String × Value))
    (js : List (String × Json)) (h : marshalEntries ((a, v) :: es) = some js) :
    ∃ j js', marshalValue v = some j ∧ marshalEntries es = some js' ∧ js = (a, j) :: js' := by
  unfold marshalEntries at h
  cases hv : marshalValue v with
  | none => simp [hv] at h
  | some j =>
    cases hes : marshalEntries es with
    | none => simp [hv, hes] at h
    | some js' =>
      simp only [hv, hes, Option.some.injEq] at h
      exact ⟨j, js', rfl, rfl, h.symm⟩

/-- A member of the marshalled object is the encoding of the value stored under its key. -/
theorem lookup_marshalEntries (es : List (String × Value)) (js : List (String × Json))
    (h : marshalEntries es = some js) (k : String) :
    Json.lookup js k = (Bag.get es k).bind marshalValue := by
  induction es generalizing js with
  | nil =>
    simp only [marshalEntries, Option.some.injEq] at h
    subst h
    rfl
  | cons e es ih =>
    obtain ⟨a, v⟩ := e
    obtain ⟨j, js', hj, hes, rfl⟩ := marshalEntries_cons_some a v es js h
    by_cases hak : a = k
    · simp [Json.lookup, Bag.get, hak, hj]
    · simp [Json.lookup, Bag.get, hak, ih js' hes]

theorem names_marshalEntries (es : List (String × Value)) (js : List (String × Json))
    (h : marshalEntries es = some js) : js.map Prod.fst = es.map Prod.fst := by
  induction es generalizing js with
  | nil =>
    simp only [marshalEntries, Option.some.injEq] at h
    subst h
    rfl
  | cons e es ih =>
    obtain ⟨a, v⟩ := e
    obtain ⟨j, js', _, hes, rfl⟩ := marshalEntries_cons_some a v es js h
    simp [ih js' hes]

/-- A bag without NaN and infinities is marshalled, to an object that has under every key the
encoding of the value the bag has under that key, and no other member names than its keys. -/
theorem marshal_of_finite (m : Bag) (h : m.allFinite) :
    ∃ doc, marshal m = some doc ∧
      (∀ k, doc.get? k = (m.get k).bind marshalValue) ∧
      (∀ k, k ∈ doc.names ↔ k ∈ m.keys) := by
  obtain ⟨js, hjs⟩ := marshalEntries_of_finite (sortByKey m)
    (fun e he => h e ((mem_sortByKey m e).mp he))
  refine ⟨.obj js, by simp [marshal, hjs], ?_, ?_⟩
  · intro k
    simp only [Json.get?]
    rw [lookup_marshalEntries _ _ hjs, get_sortByKey]
  · intro k
    simp only [Json.names, Bag.keys]
    rw [names_marshalEntries _ _ hjs]
    simp only [List.mem_map]
    constructor
    · rintro ⟨x, hx, rfl⟩
      exact ⟨x, (mem_sortByKey m x).mp hx, rfl⟩
    · rintro ⟨x, hx, rfl⟩
      exact ⟨x, (mem_sortByKey m x).mpr hx, rfl⟩

theorem Bag.allFinite_set (m : Bag) (k : String) (v : Value) (h : m.allFinite)
    (hv : v.isFinite = true) : (m.set k v).allFinite := by
  intro e he
  rcases Bag.mem_set m k v e he with heq | hmem
  · rw [heq]
    exact hv
  · exact h e hmem

/-! ## The encoding of a directive determines the directive -/

theorem marshalSlice_injective {α : Type} (f : α → Json) (hf : Function.Injective f) :
    Function.Injective (marshalSlice f) := by
  intro xs ys h
  cases xs with
  | nil =>
    cases ys with
    | nil => rfl
    | cons y ys => simp [marshalSlice] at h
  | cons x xs =>
    cases ys with
    | nil => simp [marshalSlice] at h
    | cons y ys =>
      simp only [marshalSlice, List.isEmpty_cons, Bool.false_eq_true, if_false,
        Json.arr.injEq] at h
      exact List.map_injective_iff.mpr hf h

theorem marshalMetricDefinition_injective : Function.Injective marshalMetricDefinition := by
  intro d d' h
  obtain ⟨n, u⟩ := d
  obtain ⟨n', u'⟩ := d'
  by_cases hu : u = "" <;> by_cases hu' : u' = "" <;>
    simp [marshalMetricDefinition, hu, hu'] at h ⊢
  · exact h
  · exact h

theorem marshalDimensionSet_injective : Function.Injective marshalDimensionSet :=
  marshalSlice_injective Json.str (fun a b h => by simpa using h)

theorem marshalMetricDirective_injective : Function.Injective marshalMetricDirective := by
  intro d d' h
  obtain ⟨ns, dims, ms⟩ := d
  obtain ⟨ns', dims', ms'⟩ := d'
  simp only [marshalMetricDirective, Json.obj.injEq, List.cons.injEq, Prod.mk.injEq,
    Json.str.injEq, true_and, and_true] at h
  obtain ⟨h1, h2, h3⟩ := h
  have h2' := marshalSlice_injective _ marshalDimensionSet_injective h2
  have h3' := marshalSlice_injective _ marshalMetricDefinition_injective h3
  simp [h1, h2', h3']

/-! ## C2 -/

/-- What Log does when some directive has a metric definition: the Metadata goes into the bag
under `_aws`, the bag is marshalled and the result printed. -/
theorem Logger.Log_of_ne_nil (l : Logger) (h : l.nonEmptyDirectives ≠ []) :
    l.Log =
      { l with
        values := l.values.set "_aws"
          (.metadata { Timestamp := l.timestamp, Metrics := l.nonEmptyDirectives }),
        out := Fprintln l.out (marshal (l.values.set "_aws"
          (.metadata { Timestamp := l.timestamp, Metrics := l.nonEmptyDirectives }))) } := by
  unfold Logger.Log
  simp [Logger.collect_eq, h]

theorem Logger.nonEmptyDirectives_ne_nil (l : Logger)
    (h : ∃ d ∈ l.directives, d.Metrics ≠ []) : l.nonEmptyDirectives ≠ [] := by
  obtain ⟨d, hd, hm⟩ := h
  intro hnil
  have hmem : d ∈ l.nonEmptyDirectives := by
    unfold Logger.nonEmptyDirectives
    rw [List.mem_filter]
    refine ⟨hd, ?_⟩
    cases hdm : d.Metrics with
    | nil => exact absurd hdm hm
    | cons x xs => rfl
  rw [hnil] at hmem
  exact absurd hmem (List.not_mem_nil d)

/-- C2 (as stated, refuted). After `MetricFloat("foo", NaN)` the default directive has one
metric definition, yet Log writes no document: json.Marshal fails on the NaN, the error is
dropped, and only a line feed reaches the sink. -/
theorem C2_counterexample_nan :
    (∃ d ∈ loggerNaN.directives, d.Metrics ≠ []) ∧
    loggerNaN.out.written = [] ∧
    loggerNaN.Log.out.written = [Chunk.newline] ∧
    ¬ ∃ doc, loggerNaN.Log.out.written
        = loggerNaN.out.written ++ [Chunk.text doc, Chunk.newline] := by
  have hw : loggerNaN.Log.out.written = [Chunk.newline] := rfl
  refine ⟨by decide, rfl, hw, ?_⟩
  rintro ⟨doc, hdoc⟩
  rw [hw] at hdoc
  have hlen := congrArg List.length hdoc
  simp at hlen

/-- C2 (amended). When at least one directive has a metric definition and the bag holds no NaN
or infinite float64, Log adds to the sink exactly one document followed by one line feed; the
member `_aws` of the document has `Timestamp` equal to the Logger's timestamp and
`CloudWatchMetrics` equal to the array of the encodings of the directives that have some
metric definition, default directive first, then the extra ones in creation order; and an
encoding determines namespace, dimension sets and metric definitions of its directive. -/
theorem C2_log_writes_one_document (l : Logger)
    (h : ∃ d ∈ l.directives, d.Metrics ≠ []) (hfin : l.values.allFinite) :
    ∃ doc aws,
      l.Log.out.written = l.out.written ++ [Chunk.text doc, Chunk.newline] ∧
      doc.get? "_aws" = some aws ∧
      aws.get? "Timestamp" = some (.num l.timestamp) ∧
      aws.get? "CloudWatchMetrics"
        = some (.arr ((l.directives.filter (fun d => !d.Metrics.isEmpty)).map
            marshalMetricDirective)) ∧
      Function.Injective marshalMetricDirective := by
  have hne := Logger.nonEmptyDirectives_ne_nil l h
  have hfin' : (l.values.set "_aws"
      (.metadata { Timestamp := l.timestamp, Metrics := l.nonEmptyDirectives })).allFinite :=
    Bag.allFinite_set _ _ _ hfin rfl
  obtain ⟨doc, hdoc, hget, _⟩ := marshal_of_finite _ hfin'
  refine ⟨doc, marshalMetadata { Timestamp := l.timestamp, Metrics := l.nonEmptyDirectives },
    ?_, ?_, ?_, ?_, marshalMetricDirective_injective⟩
  · rw [Logger.Log_of_ne_nil l hne]
    simp [hdoc, Fprintln]
  · rw [hget, Bag.get_set_self]
    rfl
  · simp [marshalMetadata, Json.get?, Json.lookup]
  · have hempty : l.nonEmptyDirectives.isEmpty = false := by
      cases hl : l.nonEmptyDirectives with
      | nil => exact absurd hl hne
      | cons x xs => rfl
    simp only [marshalMetadata, Json.get?, Json.lookup, marshalSlice, hempty]
    simp [Logger.nonEmptyDirectives]

theorem C2_witness :
    (∃ d ∈ loggerTwoContexts.directives, d.Metrics ≠ []) ∧
    loggerTwoContexts.values.allFinite ∧
    loggerTwoContexts.directives.length = 3 ∧
    ∃ doc aws,
      loggerTwoContexts.Log.out.written
        = loggerTwoContexts.out.written ++ [Chunk.text doc, Chunk.newline] ∧
      doc.get? "_aws" = some aws ∧
      aws.get? "Timestamp" = some (.num 1700000000123) ∧
      aws.get? "CloudWatchMetrics"
        = some (.arr [
            .obj [("Namespace", .str "aws-embedded-metrics"), ("Dimensions", .null),
              ("Metrics", .arr [.obj [("Name", .str "foo"), ("Unit", .str "None")]])],
            .obj [("Namespace", .str "galaxy"), ("Dimensions", .null),
              ("Metrics", .arr [.obj [("Name", .str "bar"), ("Unit", .str "Count")]])]]) ∧
      Function.Injective marshalMetricDirective :=
  ⟨by decide, by decide, by decide,
   C2_log_writes_one_document loggerTwoContexts (by decide) (by decide)⟩

/-! ## The writes of each call -/

theorem Bag.write_nil (m : Bag) : m.write [] = m := rfl

theorem Bag.write_cons (m : Bag) (w : String × Value) (ws : List (String × Value)) :
    m.write (w :: ws) = (m.set w.1 w.2).write ws := rfl

theorem Bag.write_append (m : Bag) (ws ws' : List (String × Value)) :
    m.write (ws ++ ws') = (m.write ws).write ws' := by
  simp [Bag.write, List.foldl_append]

theorem lastWrite_append (ws ws' : List (String × Value)) (k : String) :
    lastWrite (ws ++ ws') k
      = match lastWrite ws' k with
        | some v => some v
        | none => lastWrite ws k := by
  induction ws with
  | nil =>
    cases h : lastWrite ws' k <;> simp [lastWrite, h]
  | cons w ws ih =>
    obtain ⟨a, b⟩ := w
    rw [List.cons_append, lastWrite, ih]
    cases h : lastWrite ws' k with
    | some v => rfl
    | none => simp [lastWrite]

theorem lastWrite_of_mem (ws : List (String × Value)) (k : String) (v : Value)
    (h : (k, v) ∈ ws) : ∃ v', lastWrite ws k = some v' := by
  induction ws with
  | nil => simp at h
  | cons w ws ih =>
    obtain ⟨a, b⟩ := w
    cases hl : lastWrite ws k with
    | some v' => exact ⟨v', by simp [lastWrite, hl]⟩
    | none =>
      rcases List.mem_cons.mp h with heq | hmem
      · simp only [Prod.mk.injEq] at heq
        obtain ⟨hk, _⟩ := heq
        subst hk
        exact ⟨b, by simp [lastWrite, hl]⟩
      · obtain ⟨v', hv'⟩ := ih hmem
        rw [hl] at hv'
        exact absurd hv' (by simp)

/-- Reading a bag after a sequence of map writes: the last write to the key wins, and a key
that was not written reads as before. -/
theorem Bag.get_write (m : Bag) (ws : List (String × Value)) (k : String) :
    (m.write ws).get k = m.after ws k := by
  induction ws generalizing m with
  | nil => rfl
  | cons w ws ih =>
    obtain ⟨a, b⟩ := w
    rw [Bag.write_cons, ih]
    simp only [Bag.after, lastWrite]
    cases h : lastWrite ws k with
    | some v => rfl
    | none =>
      by_cases hak : a = k
      · simp [hak, Bag.get_set_self]
      · have hne : k ≠ a := fun e => hak e.symm
        simp [hak, Bag.get_set_other _ _ _ _ hne]

theorem Bag.mem_keys_write (m : Bag) (ws : List (String × Value)) (k : String)
    (h : k ∈ m.keys) : k ∈ (m.write ws).keys := by
  induction ws generalizing m with
  | nil => exact h
  | cons w ws ih => exact ih _ (Bag.mem_keys_set m w.1 w.2 k h)

theorem Bag.mem_keys_write_of_mem (m : Bag) (ws : List (String × Value)) (w : String × Value)
    (h : w ∈ ws) : w.1 ∈ (m.write ws).keys := by
  induction ws generalizing m with
  | nil => simp at h
  | cons x ws ih =>
    rcases List.mem_cons.mp h with heq | hmem
    · subst heq
      rw [Bag.write_cons]
      exact Bag.mem_keys_write _ _ _ (Bag.mem_keys_set_self m w.1 w.2)
    · exact ih _ hmem

theorem dimensionLoop_eq (dimensions : List Dimension) (set : DimensionSet) (values : Bag) :
    dimensionLoop dimensions set values
      = (set ++ dimensions.map (fun d => d.Key),
         values.write (dimensions.map (fun d => (d.Key, Value.str d.Value)))) := by
  induction dimensions generalizing set values with
  | nil => simp [dimensionLoop, Bag.write]
  | cons d ds ih =>
    have h := ih (set ++ [d.Key]) (values.set d.Key (.str d.Value))
    simp only [dimensionLoop, List.foldl_cons] at h ⊢
    rw [h]
    simp [Bag.write]

/-- The bulk loop `for name, value := range m { l.defaultContext.put(name, value, unit) }`. -/
theorem bulk_eq {α : Type} (g : α → Value) (unit : MetricUnit) (m : List (String × α))
    (l : Logger) :
    m.foldl (fun l e => l.onDefault (fun c => c.put e.1 (g e.2) unit)) l
      = { l with
          defaultContext :=
            { l.defaultContext with
              Metrics := l.defaultContext.Metrics
                ++ m.map (fun e => { Name := e.1, Unit := unit }) },
          values := l.values.write (m.map (fun e => (e.1, g e.2))) } := by
  induction m generalizing l with
  | nil => simp [Bag.write]
  | cons e m ih =>
    rw [List.foldl_cons, ih]
    simp [Logger.onDefault, Logger.default, Context.put, Bag.write]

theorem Logger.onContext_of_lt (l : Logger) (i : Nat) (f : Context → Context)
    (h : i < l.contexts.length) :
    l.onContext i f =
      { l with
        contexts := l.contexts.set i
          (f { metricDirective := l.contexts.get ⟨i, h⟩, values := l.values }).metricDirective,
        values := (f { metricDirective := l.contexts.get ⟨i, h⟩, values := l.values }).values } := by
  unfold Logger.onContext
  rw [List.get?_eq_get h]

theorem Logger.onContext_of_not_lt (l : Logger) (i : Nat) (f : Context → Context)
    (h : ¬ i < l.contexts.length) : l.onContext i f = l := by
  unfold Logger.onContext
  rw [List.get?_eq_none.mpr (Nat.le_of_not_lt h)]

theorem Logger.onContext_values (l : Logger) (i : Nat) (f : Context → Context)
    (ws : List (String × Value)) (hf : ∀ c, (f c).values = c.values.write ws) :
    (l.onContext i f).values = l.values.write (if i < l.contexts.length then ws else []) := by
  by_cases h : i < l.contexts.length
  · rw [Logger.onContext_of_lt l i f h, if_pos h]
    exact hf _
  · rw [Logger.onContext_of_not_lt l i f h, if_neg h]
    rfl

theorem Context.put_values (c : Context) (name : String) (value : Value) (unit : MetricUnit) :
    (c.put name value unit).values = c.values.write [(name, value)] := rfl

theorem Context.DimensionSet_values (c : Context) (dimensions : List emf.Dimension) :
    (c.DimensionSet dimensions).values
      = c.values.write (dimensions.map (fun d => (d.Key, Value.str d.Value))) := by
  simp [Context.DimensionSet, dimensionLoop_eq]

theorem newContext_values (env : Env) (values : Bag) (withoutDimensions : Bool) :
    (newContext env values withoutDimensions).values
      = values.write
          (if !withoutDimensions && env "AWS_LAMBDA_FUNCTION_NAME" != "" then
            [("ServiceType", .str "AWS::Lambda::Function"),
             ("ServiceName", .str (env "AWS_LAMBDA_FUNCTION_NAME"))]
          else []) := by
  unfold newContext
  cases withoutDimensions
  · by_cases h : env "AWS_LAMBDA_FUNCTION_NAME" = ""
    · simp [h, Bag.write]
    · simp [h, Bag.write]
  · simp [Bag.write]

/-- The bag after a call is the bag before with the writes of the call applied in order. -/
theorem step_values (env : Env) (l : Logger) (op : Op) :
    (step env l op).values = l.values.write (Op.writes env l op) := by
  cases op with
  | Namespace ns => rfl
  | Property key value => rfl
  | Dimension key value => rfl
  | DimensionSet dimensions =>
    simp [step, Logger.DimensionSet, dimensionLoop_eq, Op.writes]
  | Metric name value => rfl
  | Metrics m => simp [step, Logger.Metrics, Logger.MetricsAs, bulk_eq, Op.writes]
  | MetricFloat name value => rfl
  | MetricsFloat m =>
    simp [step, Logger.MetricsFloat, Logger.MetricsFloatAs, bulk_eq, Op.writes]
  | MetricAs name value unit => rfl
  | MetricsAs m unit => simp [step, Logger.MetricsAs, bulk_eq, Op.writes]
  | MetricFloatAs name value unit => rfl
  | MetricsFloatAs m unit => simp [step, Logger.MetricsFloatAs, bulk_eq, Op.writes]
  | Log =>
    simp only [step, Op.writes]
    cases h : l.nonEmptyDirectives with
    | nil => rw [Logger.Log_of_nil l h]; rfl
    | cons d ds =>
      have hne : l.nonEmptyDirectives ≠ [] := by simp [h]
      rw [Logger.Log_of_ne_nil l hne, h]
      rfl
  | NewContext =>
    simp only [step, Logger.NewContext, Op.writes]
    exact newContext_values env l.values l.withoutDimensions
  | ContextNamespace i ns =>
    simp only [step, Op.writes]
    rw [Logger.onContext_values l i (fun c => c.Namespace ns) [] (fun c => rfl)]
    simp
  | ContextDimension i key value =>
    simp only [step, Op.writes]
    exact Logger.onContext_values l i _ [(key, .str value)] (fun c => rfl)
  | ContextDimensionSet i dimensions =>
    simp only [step, Op.writes]
    exact Logger.onContext_values l i _ _ (fun c => Context.DimensionSet_values c dimensions)
  | ContextMetric i name value =>
    simp only [step, Op.writes]
    exact Logger.onContext_values l i _ [(name, .int value)] (fun c => rfl)
  | ContextMetricFloat i name value =>
    simp only [step, Op.writes]
    exact Logger.onContext_values l i _ [(name, .float value)] (fun c => rfl)
  | ContextMetricAs i name value unit =>
    simp only [step, Op.writes]
    exact Logger.onContext_values l i _ [(name, .int value)] (fun c => rfl)
  | ContextMetricFloatAs i name value unit =>
    simp only [step, Op.writes]
    exact Logger.onContext_values l i _ [(name, .float value)] (fun c => rfl)

theorem run_cons (l : Logger) (c : Env × Op) (calls : List (Env × Op)) :
    run l (c :: calls) = run (step c.1 l c.2) calls := rfl

theorem run_append (l : Logger) (calls calls' : List (Env × Op)) :
    run l (calls ++ calls') = run (run l calls) calls' := by
  simp [run, List.foldl_append]

/-- The bag after a sequence of calls is the bag before with all their writes applied. -/
theorem run_values (l : Logger) (calls : List (Env × Op)) :
    (run l calls).values = l.values.write (writesOf l calls) := by
  induction calls generalizing l with
  | nil => rfl
  | cons c calls ih =>
    rw [run_cons, ih, step_values, writesOf, Bag.write_append]

theorem writesOf_append (l : Logger) (calls calls' : List (Env × Op)) :
    writesOf l (calls ++ calls') = writesOf l calls ++ writesOf (run l calls) calls' := by
  induction calls generalizing l with
  | nil => rfl
  | cons c calls ih =>
    rw [List.cons_append, writesOf, writesOf, ih, run_cons, List.append_assoc]

theorem mem_directives_of_onContext (l : Logger) (i : Nat) (f : Context → Context)
    (h : i < l.contexts.length) :
    (f { metricDirective := l.contexts.get ⟨i, h⟩, values := l.values }).metricDirective
      ∈ (l.onContext i f).directives := by
  rw [Logger.onContext_of_lt l i f h]
  simp only [Logger.directives]
  exact List.mem_cons_of_mem _ (List.mem_set _ _ h _)

/-- A Metric call that writes the name `n` lists `n` in the metric definitions of the
directive it is called on. -/
theorem step_metric_declares (env : Env) (l : Logger) (op : Op) (n : String) (v : Value)
    (hop : op.isMetric = true) (h : (n, v) ∈ Op.writes env l op) :
    ∃ d ∈ (step env l op).directives, ∃ md ∈ d.Metrics, md.Name = n := by
  have single : ∀ (value : Value) (unit : MetricUnit),
      ∃ d ∈ (l.onDefault (fun c => c.put n value unit)).directives,
        ∃ md ∈ d.Metrics, md.Name = n := by
    intro value unit
    exact ⟨_, List.mem_cons_self _ _, ⟨n, unit⟩, by simp [Logger.onDefault, Context.put], rfl⟩
  have bulk : ∀ {α : Type} (g : α → Value) (unit : MetricUnit) (m : List (String × α)),
      (n, v) ∈ m.map (fun e => (e.1, g e.2)) →
      ∃ d ∈ (m.foldl (fun l e => l.onDefault (fun c => c.put e.1 (g e.2) unit)) l).directives,
        ∃ md ∈ d.Metrics, md.Name = n := by
    intro α g unit m hm
    rw [bulk_eq]
    obtain ⟨e, he, heq⟩ := List.mem_map.mp hm
    simp only [Prod.mk.injEq] at heq
    refine ⟨_, List.mem_cons_self _ _, ⟨e.1, unit⟩, ?_, heq.1⟩
    simp only [List.mem_append, List.mem_map]
    exact Or.inr ⟨e, he, rfl⟩
  have ctx : ∀ (i : Nat) (name : String) (value value' : Value) (unit : MetricUnit),
      (n, v) ∈ (if i < l.contexts.length then [(name, value')] else []) →
      ∃ d ∈ (l.onContext i (fun c => c.put name value unit)).directives,
        ∃ md ∈ d.Metrics, md.Name = n := by
    intro i name value value' unit hm
    by_cases hi : i < l.contexts.length
    · rw [if_pos hi] at hm
      have hn : n = name := (Prod.mk.inj (List.mem_singleton.mp hm)).1
      subst hn
      exact ⟨_, mem_directives_of_onContext l i _ hi, ⟨n, unit⟩, by simp [Context.put], rfl⟩
    · simp [hi] at hm
  cases op with
  | Metric name value =>
    have hn : n = name := (Prod.mk.inj (List.mem_singleton.mp h)).1
    subst hn
    exact single (.int value) None
  | MetricFloat name value =>
    have hn : n = name := (Prod.mk.inj (List.mem_singleton.mp h)).1
    subst hn
    exact single (.float value) None
  | MetricAs name value unit =>
    have hn : n = name := (Prod.mk.inj (List.mem_singleton.mp h)).1
    subst hn
    exact single (.int value) unit
  | MetricFloatAs name value unit =>
    have hn : n = name := (Prod.mk.inj (List.mem_singleton.mp h)).1
    subst hn
    exact single (.float value) unit
  | Metrics m => exact bulk Value.int None m h
  | MetricsFloat m => exact bulk Value.float None m h
  | MetricsAs m unit => exact bulk Value.int unit m h
  | MetricsFloatAs m unit => exact bulk Value.float unit m h
  | ContextMetric i name value => exact ctx i name (.int value) (.int value) None h
  | ContextMetricFloat i name value => exact ctx i name (.float value) (.float value) None h
  | ContextMetricAs i name value unit => exact ctx i name (.int value) (.int value) unit h
  | ContextMetricFloatAs i name value unit =>
    exact ctx i name (.float value) (.float value) unit h
  | Namespace _ => simp [Op.isMetric] at hop
  | Property _ _ => simp [Op.isMetric] at hop
  | Dimension _ _ => simp [Op.isMetric] at hop
  | DimensionSet _ => simp [Op.isMetric] at hop
  | Log => simp [Op.isMetric] at hop
  | NewContext => simp [Op.isMetric] at hop
  | ContextNamespace _ _ => simp [Op.isMetric] at hop
  | ContextDimension _ _ _ => simp [Op.isMetric] at hop
  | ContextDimensionSet _ _ => simp [Op.isMetric] at hop

/-! ## C3 -/

/-- C3 (as stated, refuted). `Metric("foo", 33)` declares foo with value 33; a later
`Property("foo", "bar")` writes the same key of the shared bag. Log emits a document, and the
value under foo is the string bar, not 33. -/
theorem C3_counterexample_overwritten :
    loggerOverwritten = step envEmpty (step envEmpty freshLogger (.Metric "foo" 33))
      (.Property "foo" "bar") ∧
    ∃ doc,
      loggerOverwritten.Log.out.written = [Chunk.text doc, Chunk.newline] ∧
      doc.get? "foo" = some (.str "bar") ∧
      doc.get? "foo" ≠ some (.num 33) := by
  refine ⟨rfl, _, rfl, rfl, ?_⟩
  intro h
  have h2 : (some (Json.str "bar") : Option Json) = some (Json.num 33) := h
  simp at h2

/-- C3 (amended). Let a Metric call (any form, on the Logger or on a Context) write the name
`n` with value `v`, which lists `n` in the metric definitions of its directive; let any calls
follow, and let Log then emit a document (some directive has
a metric definition; no NaN or infinity in the bag). Then `n` is a member name of the
document. If `n` is not `_aws`, the member is the encoding of the value written last to `n`
by all these calls; it is the encoding of `v` itself when `v` is the last value the Metric call
wrote to `n` and no later call wrote to `n`. -/
theorem C3_metric_names_are_keys (l : Logger) (env : Env) (op : Op) (post : List (Env × Op))
    (n : String) (v : Value)
    (hop : op.isMetric = true) (hdecl : (n, v) ∈ Op.writes env l op)
    (hemit : ∃ d ∈ (run (step env l op) post).directives, d.Metrics ≠ [])
    (hfin : (run (step env l op) post).values.allFinite) :
    (∃ d ∈ (step env l op).directives, ∃ md ∈ d.Metrics, md.Name = n) ∧
    ∃ doc,
      (run (step env l op) post).Log.out.written
        = (run (step env l op) post).out.written ++ [Chunk.text doc, Chunk.newline] ∧
      n ∈ doc.names ∧
      (n ≠ "_aws" →
        doc.get? n = (lastWrite (writesOf l ((env, op) :: post)) n).bind marshalValue) ∧
      (n ≠ "_aws" → lastWrite (Op.writes env l op) n = some v →
        lastWrite (writesOf (step env l op) post) n = none →
        doc.get? n = marshalValue v) := by
  refine ⟨step_metric_declares env l op n v hop hdecl, ?_⟩
  have hne := Logger.nonEmptyDirectives_ne_nil _ hemit
  have hfin' : ((run (step env l op) post).values.set "_aws"
      (.metadata { Timestamp := (run (step env l op) post).timestamp,
                   Metrics := (run (step env l op) post).nonEmptyDirectives })).allFinite :=
    Bag.allFinite_set _ _ _ hfin rfl
  obtain ⟨doc, hdoc, hget, hnames⟩ := marshal_of_finite _ hfin'
  have hvals : (run (step env l op) post).values
      = l.values.write (writesOf l ((env, op) :: post)) := by
    rw [← run_cons l (env, op) post, run_values]
  have hmem : (n, v) ∈ writesOf l ((env, op) :: post) := by
    rw [writesOf]
    exact List.mem_append_left _ hdecl
  obtain ⟨v', hv'⟩ := lastWrite_of_mem _ n v hmem
  have hread : n ≠ "_aws" →
      doc.get? n = (lastWrite (writesOf l ((env, op) :: post)) n).bind marshalValue := by
    intro hn
    rw [hget, Bag.get_set_other _ _ _ _ hn, hvals, Bag.get_write]
    simp [Bag.after, hv']
  refine ⟨doc, ?_, ?_, hread, ?_⟩
  · rw [Logger.Log_of_ne_nil _ hne]
    simp [hdoc, Fprintln]
  · rw [hnames]
    apply Bag.mem_keys_set
    rw [hvals]
    exact Bag.mem_keys_write_of_mem _ _ (n, v) hmem
  · intro hn hlast hnone
    rw [hread hn, writesOf, lastWrite_append]
    simp [hnone, hlast]

theorem C3_witness :
    (Op.Metric "foo" 33).isMetric = true ∧
    (("foo", Value.int 33) ∈ Op.writes envEmpty freshLogger (.Metric "foo" 33)) ∧
    (∃ d ∈ (run (step envEmpty freshLogger (.Metric "foo" 33)) laterCalls).directives,
      d.Metrics ≠ []) ∧
    (run (step envEmpty freshLogger (.Metric "foo" 33)) laterCalls).values.allFinite ∧
    (∃ d ∈ (step envEmpty freshLogger (.Metric "foo" 33)).directives,
      ∃ md ∈ d.Metrics, md.Name = "foo") ∧
    ∃ doc,
      (run (step envEmpty freshLogger (.Metric "foo" 33)) laterCalls).Log.out.written
        = (run (step envEmpty freshLogger (.Metric "foo" 33)) laterCalls).out.written
            ++ [Chunk.text doc, Chunk.newline] ∧
      "foo" ∈ doc.names ∧
      ("foo" ≠ "_aws" →
        doc.get? "foo"
          = (lastWrite (writesOf freshLogger ((envEmpty, .Metric "foo" 33) :: laterCalls))
              "foo").bind marshalValue) ∧
      ("foo" ≠ "_aws" →
        lastWrite (Op.writes envEmpty freshLogger (.Metric "foo" 33)) "foo"
          = some (Value.int 33) →
        lastWrite (writesOf (step envEmpty freshLogger (.Metric "foo" 33)) laterCalls) "foo"
          = none →
        doc.get? "foo" = marshalValue (Value.int 33)) :=
  ⟨rfl, by decide, by decide, by decide,
   C3_metric_names_are_keys freshLogger envEmpty (.Metric "foo" 33) laterCalls "foo"
     (.int 33) rfl (by decide) (by decide) (by decide)⟩

/-! ## C7 -/

/-- C7. After any sequence of calls on a Logger and on the Contexts created from it, made in
any environments, the bag holds under every key the value of the last write the sequence made
to that key, and what it held before when the sequence made none; which call made the write,
on which object, and whether it wrote a metric, a dimension or a property plays no part. In
particular a value written by one call stays until a later call writes the same key. -/
theorem C7_last_write_wins (l : Logger) (calls : List (Env × Op)) (k : String) :
    (run l calls).values.get k = l.values.after (writesOf l calls) k ∧
    ∀ (pre post : List (Env × Op)) (c : Env × Op) (v : Value),
      calls = pre ++ c :: post →
      lastWrite (Op.writes c.1 (run l pre) c.2) k = some v →
      lastWrite (writesOf (step c.1 (run l pre) c.2) post) k = none →
      (run l calls).values.get k = some v := by
  have h : (run l calls).values.get k = l.values.after (writesOf l calls) k := by
    rw [run_values, Bag.get_write]
  refine ⟨h, ?_⟩
  intro pre post c v hcalls hlast hnone
  rw [h, hcalls, writesOf_append, writesOf]
  simp [Bag.after, lastWrite_append, hnone, hlast]

theorem C7_witness :
    (run freshLogger ((envEmpty, .Metric "aaa" 33) :: laterCalls)).values.get "aaa"
      = some (.str "666") ∧
    (run freshLogger ((envEmpty, .Metric "aaa" 33) :: laterCalls)).values.get "aaa"
      = freshLogger.values.after
          (writesOf freshLogger ((envEmpty, .Metric "aaa" 33) :: laterCalls)) "aaa" :=
  ⟨by decide, (C7_last_write_wins freshLogger ((envEmpty, .Metric "aaa" 33) :: laterCalls)
    "aaa").1⟩

/-! ## C4, C5 -/

/-- C4 (as stated, refuted). `Dimension("a","b").Metric("c",11).Log()` writes a document whose
first directive has `Metrics` equal to the one definition with name c AND unit None: the Unit
field is there. -/
theorem C4_counterexample_unit_present :
    ∃ doc aws directive,
      loggerDimension.Log.out.written = [Chunk.text doc, Chunk.newline] ∧
      doc.get? "_aws" = some aws ∧
      aws.get? "CloudWatchMetrics" = some (.arr [directive]) ∧
      directive.get? "Metrics"
        = some (.arr [.obj [("Name", .str "c"), ("Unit", .str "None")]]) ∧
      directive.get? "Metrics" ≠ some (.arr [.obj [("Name", .str "c")]]) := by
  refine ⟨_, _, _, rfl, rfl, rfl, rfl, ?_⟩
  intro h
  have h2 : (some (Json.arr [.obj [("Name", .str "c"), ("Unit", .str "None")]]) : Option Json)
      = some (.arr [.obj [("Name", .str "c")]]) := h
  simp at h2

/-- C4 (amended). The definition appended by the plain `Metric(name, value)` or
`MetricFloat(name, value)`, on the Logger or on a Context, has the unit None, and is
serialized with both fields, Name and Unit, the Unit being the string None; in the dimension
scenario the first directive has `Dimensions` equal to the one set with key a and `Metrics`
equal to the one definition with name c and unit None. -/
theorem C4_plain_metric_has_unit_none (l : Logger) (c : Context) (name : String) (value : Int)
    (x : Float64) :
    (l.Metric name value).defaultContext.Metrics
      = l.defaultContext.Metrics ++ [{ Name := name, Unit := "None" }] ∧
    (l.MetricFloat name x).defaultContext.Metrics
      = l.defaultContext.Metrics ++ [{ Name := name, Unit := "None" }] ∧
    (c.Metric name value).metricDirective.Metrics
      = c.metricDirective.Metrics ++ [{ Name := name, Unit := "None" }] ∧
    (c.MetricFloat name x).metricDirective.Metrics
      = c.metricDirective.Metrics ++ [{ Name := name, Unit := "None" }] ∧
    marshalMetricDefinition { Name := name, Unit := "None" }
      = .obj [("Name", .str name), ("Unit", .str "None")] ∧
    ∃ doc aws directive,
      loggerDimension.Log.out.written = [Chunk.text doc, Chunk.newline] ∧
      doc.get? "_aws" = some aws ∧
      aws.get? "CloudWatchMetrics" = some (.arr [directive]) ∧
      directive.get? "Dimensions" = some (.arr [.arr [.str "a"]]) ∧
      directive.get? "Metrics"
        = some (.arr [.obj [("Name", .str "c"), ("Unit", .str "None")]]) :=
  ⟨rfl, rfl, rfl, rfl, rfl, _, _, _, rfl, rfl, rfl, rfl, rfl⟩

theorem allUnits_ne_empty : ∀ u ∈ allUnits, u ≠ "" := by decide

/-- C5. The Unit field is absent from the serialized form of a metric definition exactly when
its unit is the empty string, and otherwise holds the unit's string; the Name field is always
there. A definition made by `MetricAs(name, v, None)` has unit None and serializes with Unit
equal to the string None, and one with any constant of units.go serializes with exactly that
constant's string. -/
theorem C5_unit_absent_iff_empty (d : MetricDefinition) (l : Logger) (name : String)
    (v : Int) :
    ((marshalMetricDefinition d).get? "Unit" = none ↔ d.Unit = "") ∧
    (d.Unit ≠ "" → (marshalMetricDefinition d).get? "Unit" = some (.str d.Unit)) ∧
    (marshalMetricDefinition d).get? "Name" = some (.str d.Name) ∧
    (l.MetricAs name v None).defaultContext.Metrics
      = l.defaultContext.Metrics ++ [{ Name := name, Unit := "None" }] ∧
    marshalMetricDefinition { Name := name, Unit := None }
      = .obj [("Name", .str name), ("Unit", .str "None")] ∧
    (∀ u ∈ allUnits, marshalMetricDefinition { Name := name, Unit := u }
      = .obj [("Name", .str name), ("Unit", .str u)]) := by
  refine ⟨?_, ?_, ?_, rfl, rfl, ?_⟩
  · by_cases hu : d.Unit = ""
    · simp [marshalMetricDefinition, hu, Json.get?, Json.lookup]
    · simp [marshalMetricDefinition, hu, Json.get?, Json.lookup]
  · intro hu
    simp [marshalMetricDefinition, hu, Json.get?, Json.lookup]
  · simp [marshalMetricDefinition, Json.get?, Json.lookup]
  · intro u hu
    simp [marshalMetricDefinition, allUnits_ne_empty u hu]

theorem C5_witness :
    Count ∈ allUnits ∧
    (marshalMetricDefinition { Name := "bar", Unit := Count }).get? "Unit"
      = some (.str "Count") ∧
    marshalMetricDefinition { Name := "bar", Unit := Count }
      = .obj [("Name", .str "bar"), ("Unit", .str "Count")] :=
  ⟨by decide,
   (C5_unit_absent_iff_empty { Name := "bar", Unit := Count } freshLogger "bar" 666).2.1
     (by decide),
   (C5_unit_absent_iff_empty { Name := "bar", Unit := Count } freshLogger "bar" 666).2.2.2.2.2
     Count (by decide)⟩

/-! ## C6 -/

/-- C6 (as stated, refuted). A Logger built while no variable is set: a NewContext called
while the function name is set makes a directive with the dimension set ServiceName,
ServiceType and writes both keys, and a NewContext called on the same Logger while it is
unset makes a directive without dimension sets and writes nothing. -/
theorem C6_counterexample_env_read_at_call :
    freshLogger = New envEmpty sampleTime [] ∧
    (freshLogger.NewContext envLambda).1.contexts
      = [{ Namespace := "aws-embedded-metrics",
           Dimensions := [["ServiceName", "ServiceType"]], Metrics := [] }] ∧
    (freshLogger.NewContext envEmpty).1.contexts
      = [{ Namespace := "aws-embedded-metrics", Dimensions := [], Metrics := [] }] ∧
    (freshLogger.NewContext envLambda).1.values.get "ServiceName"
      = some (.str "some-func-name") ∧
    (freshLogger.NewContext envLambda).1.values.get "ServiceType"
      = some (.str "AWS::Lambda::Function") ∧
    (freshLogger.NewContext envEmpty).1.values.get "ServiceName" = none ∧
    (freshLogger.NewContext envEmpty).1.values.get "ServiceType" = none :=
  ⟨rfl, by decide, by decide, by decide, by decide, by decide, by decide⟩

/-- C6 (amended). NewContext reads one variable, the function name, from the environment of
the call, and only when the Logger does not suppress the ambient defaults: called on the same
Logger in two environments, it has the same effect (Logger afterwards, Context returned) when
the Logger was built WithoutDimensions or the two environments agree on the function name. -/
theorem C6_new_context_reads_function_name (l : Logger) (e1 e2 : Env)
    (h : l.withoutDimensions = true ∨
      e1 "AWS_LAMBDA_FUNCTION_NAME" = e2 "AWS_LAMBDA_FUNCTION_NAME") :
    l.NewContext e1 = l.NewContext e2 := by
  rcases h with h | h
  · simp [Logger.NewContext, newContext, h]
  · simp [Logger.NewContext, newContext, h]

theorem C6_witness :
    (freshLogger.withoutDimensions = true ∨
      envLambda "AWS_LAMBDA_FUNCTION_NAME" = envOther "AWS_LAMBDA_FUNCTION_NAME") ∧
    envLambda "AWS_EXECUTION_ENV" ≠ envOther "AWS_EXECUTION_ENV" ∧
    envLambda "_X_AMZN_TRACE_ID" ≠ envOther "_X_AMZN_TRACE_ID" ∧
    freshLogger.NewContext envLambda = freshLogger.NewContext envOther :=
  ⟨by decide, by decide, by decide,
   C6_new_context_reads_function_name freshLogger envLambda envOther (by decide)⟩

/-! ## C9, C10 -/

/-- C9. `Logger.Dimension(key, value)` appends the one dimension set with the one key `key` at
the end of the dimension sets of the default directive and sets the bag at `key` to `value`;
the namespace and the metric definitions of the default directive, the extra directives, the
bag at every other key, the timestamp, the sink and the ambient-defaults flag are unchanged. -/
theorem C9_dimension_frame (l : Logger) (key value : String) :
    (l.Dimension key value).defaultContext.Dimensions
      = l.defaultContext.Dimensions ++ [[key]] ∧
    (∀ k, (l.Dimension key value).values.get k
      = if k = key then some (.str value) else l.values.get k) ∧
    (l.Dimension key value).defaultContext.Namespace = l.defaultContext.Namespace ∧
    (l.Dimension key value).defaultContext.Metrics = l.defaultContext.Metrics ∧
    (l.Dimension key value).contexts = l.contexts ∧
    (l.Dimension key value).timestamp = l.timestamp ∧
    (l.Dimension key value).out = l.out ∧
    (l.Dimension key value).withoutDimensions = l.withoutDimensions := by
  refine ⟨rfl, ?_, rfl, rfl, rfl, rfl, rfl, rfl⟩
  intro k
  simp only [Logger.Dimension, Bag.get_set]
  by_cases h : k = key
  · simp [h]
  · have h' : ¬ key = k := fun e => h e.symm
    simp [h, h']

theorem lastWrite_dimensions (pairs : List Dimension) (k : String) :
    lastWrite (pairs.map (fun d => (d.Key, Value.str d.Value))) k
      = (lastPair pairs k).map (fun d => Value.str d.Value) := by
  induction pairs with
  | nil => rfl
  | cons d ds ih =>
    simp only [List.map_cons, lastWrite, ih, lastPair, List.reverse_cons, List.find?_append]
    cases h : List.find? (fun d => d.Key == k) ds.reverse with
    | some d' => simp
    | none =>
      by_cases hk : d.Key = k
      · simp [hk]
      · simp [hk]

/-- C10. `Logger.DimensionSet(pairs...)`, for every list of pairs, the empty one included,
appends exactly one dimension set at the end of the dimension sets of the default directive,
the list of the keys of the pairs in the given order (the empty set for no pair); afterwards
the bag holds, under every key that occurs in the pairs, the value of the last pair with that
key, and under every other key what it held before. Nothing else of the Logger changes. -/
theorem C10_dimension_set (l : Logger) (pairs : List Dimension) :
    (l.DimensionSet pairs).defaultContext.Dimensions
      = l.defaultContext.Dimensions ++ [pairs.map (fun d => d.Key)] ∧
    (∀ k, (l.DimensionSet pairs).values.get k
      = match lastPair pairs k with
        | some d => some (.str d.Value)
        | none => l.values.get k) ∧
    (∀ k, (lastPair pairs k).isSome = true ↔ k ∈ pairs.map (fun d => d.Key)) ∧
    (l.DimensionSet []).defaultContext.Dimensions = l.defaultContext.Dimensions ++ [[]] ∧
    (l.DimensionSet []).values = l.values ∧
    (l.DimensionSet pairs).defaultContext.Namespace = l.defaultContext.Namespace ∧
    (l.DimensionSet pairs).defaultContext.Metrics = l.defaultContext.Metrics ∧
    (l.DimensionSet pairs).contexts = l.contexts ∧
    (l.DimensionSet pairs).timestamp = l.timestamp ∧
    (l.DimensionSet pairs).out = l.out := by
  refine ⟨?_, ?_, ?_, rfl, rfl, rfl, rfl, rfl, rfl, rfl⟩
  · simp [Logger.DimensionSet, dimensionLoop_eq]
  · intro k
    simp only [Logger.DimensionSet, dimensionLoop_eq, Bag.get_write, Bag.after,
      lastWrite_dimensions]
    cases lastPair pairs k <;> rfl
  · intro k
    simp [lastPair, List.find?_isSome]

/-! ## C8: names and dimension keys are keys of the bag -/

theorem MetricDirective.Covered.mono {d : MetricDirective} {m m' : Bag} (h : d.Covered m)
    (hk : ∀ k ∈ m.keys, k ∈ m'.keys) : d.Covered m' :=
  ⟨fun md hmd => hk _ (h.1 md hmd), fun s hs k hks => hk _ (h.2 s hs k hks)⟩

theorem Logger.Covered_onDefault (l : Logger) (f : Context → Context)
    (hk : ∀ c : Context, ∀ k ∈ c.values.keys, k ∈ (f c).values.keys)
    (hc : ∀ c : Context, c.metricDirective.Covered c.values →
      (f c).metricDirective.Covered (f c).values)
    (h : l.Covered) : (l.onDefault f).Covered := by
  intro d hd
  simp only [Logger.onDefault, Logger.directives, List.mem_cons] at hd
  rcases hd with rfl | hd
  · exact hc l.default (h _ (List.mem_cons_self _ _))
  · exact (h d (List.mem_cons_of_mem _ hd)).mono (hk l.default)

theorem Logger.Covered_onContext (l : Logger) (i : Nat) (f : Context → Context)
    (hk : ∀ c : Context, ∀ k ∈ c.values.keys, k ∈ (f c).values.keys)
    (hc : ∀ c : Context, c.metricDirective.Covered c.values →
      (f c).metricDirective.Covered (f c).values)
    (h : l.Covered) : (l.onContext i f).Covered := by
  by_cases hi : i < l.contexts.length
  · rw [Logger.onContext_of_lt l i f hi]
    intro d hd
    simp only [Logger.directives, List.mem_cons] at hd
    have hmono := hk { metricDirective := l.contexts.get ⟨i, hi⟩, values := l.values }
    rcases hd with rfl | hd
    · exact (h _ (List.mem_cons_self _ _)).mono hmono
    · rcases List.mem_or_eq_of_mem_set hd with hd | rfl
      · exact (h d (List.mem_cons_of_mem _ hd)).mono hmono
      · exact hc _ (h _ (List.mem_cons_of_mem _ (List.get_mem _ _ _)))
  · rw [Logger.onContext_of_not_lt l i f hi]
    exact h

theorem Context.put_keys (name : String) (value : Value) (unit : MetricUnit) (c : Context) :
    ∀ k ∈ c.values.keys, k ∈ (c.put name value unit).values.keys :=
  fun k hk => Bag.mem_keys_set _ _ _ k hk

theorem Context.put_covered (name : String) (value : Value) (unit : MetricUnit) (c : Context)
    (h : c.metricDirective.Covered c.values) :
    (c.put name value unit).metricDirective.Covered (c.put name value unit).values := by
  constructor
  · intro md hmd
    simp only [Context.put, List.mem_append, List.mem_singleton] at hmd
    rcases hmd with hmd | rfl
    · exact Bag.mem_keys_set _ _ _ _ (h.1 md hmd)
    · exact Bag.mem_keys_set_self _ _ _
  · intro s hs k hks
    exact Bag.mem_keys_set _ _ _ _ (h.2 s hs k hks)

theorem Context.Dimension_covered (key value : String) (c : Context)
    (h : c.metricDirective.Covered c.values) :
    (c.Dimension key value).metricDirective.Covered (c.Dimension key value).values := by
  constructor
  · intro md hmd
    exact Bag.mem_keys_set _ _ _ _ (h.1 md hmd)
  · intro s hs k hks
    simp only [Context.Dimension, List.mem_append, List.mem_singleton] at hs
    rcases hs with hs | rfl
    · exact Bag.mem_keys_set _ _ _ _ (h.2 s hs k hks)
    · rw [List.mem_singleton.mp hks]
      exact Bag.mem_keys_set_self _ _ _

theorem Context.DimensionSet_keys (dimensions : List emf.Dimension) (c : Context) :
    ∀ k ∈ c.values.keys, k ∈ (c.DimensionSet dimensions).values.keys := by
  intro k hk
  rw [Context.DimensionSet_values]
  exact Bag.mem_keys_write _ _ _ hk

theorem Context.DimensionSet_covered (dimensions : List emf.Dimension) (c : Context)
    (h : c.metricDirective.Covered c.values) :
    (c.DimensionSet dimensions).metricDirective.Covered (c.DimensionSet dimensions).values := by
  have hd : (c.DimensionSet dimensions).metricDirective.Dimensions
      = c.metricDirective.Dimensions ++ [dimensions.map (fun d => d.Key)] := by
    simp [Context.DimensionSet, dimensionLoop_eq]
  constructor
  · intro md hmd
    exact Context.DimensionSet_keys dimensions c _ (h.1 md hmd)
  · intro s hs k hks
    rw [hd, List.mem_append, List.mem_singleton] at hs
    rcases hs with hs | rfl
    · exact Context.DimensionSet_keys dimensions c _ (h.2 s hs k hks)
    · rw [Context.DimensionSet_values]
      obtain ⟨d, hd, rfl⟩ := List.mem_map.mp hks
      exact Bag.mem_keys_write_of_mem _ _ (d.Key, Value.str d.Value)
        (List.mem_map.mpr ⟨d, hd, rfl⟩)

theorem Logger.Covered_bulk {α : Type} (g : α → Value) (unit : MetricUnit)
    (m : List (String × α)) (l : Logger) (h : l.Covered) :
    (m.foldl (fun l e => l.onDefault (fun c => c.put e.1 (g e.2) unit)) l).Covered := by
  induction m generalizing l with
  | nil => exact h
  | cons e m ih =>
    rw [List.foldl_cons]
    exact ih _ (Logger.Covered_onDefault l _ (Context.put_keys _ _ _)
      (Context.put_covered _ _ _) h)

theorem Logger.Covered_of_values (l l' : Logger) (hd : l'.directives = l.directives)
    (hk : ∀ k ∈ l.values.keys, k ∈ l'.values.keys) (h : l.Covered) : l'.Covered := by
  intro d hmem
  rw [hd] at hmem
  exact (h d hmem).mono hk

theorem step_keys (env : Env) (l : Logger) (op : Op) (k : String) (h : k ∈ l.values.keys) :
    k ∈ (step env l op).values.keys := by
  rw [step_values]
  exact Bag.mem_keys_write _ _ _ h

theorem newContext_covered (env : Env) (values : Bag) (withoutDimensions : Bool) :
    (newContext env values withoutDimensions).metricDirective.Covered
      (newContext env values withoutDimensions).values := by
  unfold newContext
  cases withoutDimensions
  · by_cases h : env "AWS_LAMBDA_FUNCTION_NAME" = ""
    · simp [h, MetricDirective.Covered]
    · simp only [Bool.not_false, h, bne_iff_ne, ne_eq, not_false_eq_true, if_true]
      constructor
      · intro md hmd
        simp at hmd
      · intro s hs k hks
        simp only [List.mem_singleton] at hs
        subst hs
        simp only [List.mem_cons, List.mem_singleton, List.not_mem_nil, or_false] at hks
        rcases hks with rfl | rfl
        · exact Bag.mem_keys_set_self _ _ _
        · exact Bag.mem_keys_set _ _ _ _ (Bag.mem_keys_set_self _ _ _)
  · simp [MetricDirective.Covered]

/-- Every call keeps the names and dimension keys of all directives among the bag keys. -/
theorem step_covered (env : Env) (l : Logger) (op : Op) (h : l.Covered) :
    (step env l op).Covered := by
  cases op with
  | Namespace ns =>
    exact Logger.Covered_onDefault l _ (fun c k hk => hk) (fun c hc => hc) h
  | Property key value =>
    exact Logger.Covered_of_values l _ rfl (fun k hk => Bag.mem_keys_set _ _ _ k hk) h
  | Dimension key value =>
    exact Logger.Covered_onDefault l (fun c => c.Dimension key value)
      (fun c k hk => Bag.mem_keys_set _ _ _ k hk) (Context.Dimension_covered key value) h
  | DimensionSet dimensions =>
    exact Logger.Covered_onDefault l (fun c => c.DimensionSet dimensions)
      (Context.DimensionSet_keys dimensions) (Context.DimensionSet_covered dimensions) h
  | Metric name value =>
    exact Logger.Covered_onDefault l _ (Context.put_keys _ _ _) (Context.put_covered _ _ _) h
  | Metrics m => exact Logger.Covered_bulk Value.int None m l h
  | MetricFloat name value =>
    exact Logger.Covered_onDefault l _ (Context.put_keys _ _ _) (Context.put_covered _ _ _) h
  | MetricsFloat m => exact Logger.Covered_bulk Value.float None m l h
  | MetricAs name value unit =>
    exact Logger.Covered_onDefault l _ (Context.put_keys _ _ _) (Context.put_covered _ _ _) h
  | MetricsAs m unit => exact Logger.Covered_bulk Value.int unit m l h
  | MetricFloatAs name value unit =>
    exact Logger.Covered_onDefault l _ (Context.put_keys _ _ _) (Context.put_covered _ _ _) h
  | MetricsFloatAs m unit => exact Logger.Covered_bulk Value.float unit m l h
  | Log =>
    refine Logger.Covered_of_values l _ ?_ (fun k hk => step_keys env l .Log k hk) h
    simp only [step]
    cases hn : l.nonEmptyDirectives with
    | nil => rw [Logger.Log_of_nil l hn]
    | cons d ds =>
      have hne : l.nonEmptyDirectives ≠ [] := by simp [hn]
      rw [Logger.Log_of_ne_nil l hne]
      rfl
  | NewContext =>
    intro d hd
    simp only [step, Logger.NewContext, Logger.directives, List.mem_cons, List.mem_append,
      List.not_mem_nil, or_false] at hd
    have hmono : ∀ k ∈ l.values.keys,
        k ∈ (newContext env l.values l.withoutDimensions).values.keys :=
      fun k hk => step_keys env l .NewContext k hk
    rcases hd with rfl | hd | rfl
    · exact (h _ (List.mem_cons_self _ _)).mono hmono
    · exact (h d (List.mem_cons_of_mem _ hd)).mono hmono
    · exact newContext_covered env l.values l.withoutDimensions
  | ContextNamespace i ns =>
    exact Logger.Covered_onContext l i _ (fun c k hk => hk) (fun c hc => hc) h
  | ContextDimension i key value =>
    exact Logger.Covered_onContext l i (fun c => c.Dimension key value)
      (fun c k hk => Bag.mem_keys_set _ _ _ k hk) (Context.Dimension_covered key value) h
  | ContextDimensionSet i dimensions =>
    exact Logger.Covered_onContext l i (fun c => c.DimensionSet dimensions)
      (Context.DimensionSet_keys dimensions) (Context.DimensionSet_covered dimensions) h
  | ContextMetric i name value =>
    exact Logger.Covered_onContext l i _ (Context.put_keys _ _ _) (Context.put_covered _ _ _) h
  | ContextMetricFloat i name value =>
    exact Logger.Covered_onContext l i _ (Context.put_keys _ _ _) (Context.put_covered _ _ _) h
  | ContextMetricAs i name value unit =>
    exact Logger.Covered_onContext l i _ (Context.put_keys _ _ _) (Context.put_covered _ _ _) h
  | ContextMetricFloatAs i name value unit =>
    exact Logger.Covered_onContext l i _ (Context.put_keys _ _ _) (Context.put_covered _ _ _) h

theorem run_covered (l : Logger) (calls : List (Env × Op)) (h : l.Covered) :
    (run l calls).Covered := by
  induction calls generalizing l with
  | nil => exact h
  | cons c calls ih => exact ih _ (step_covered c.1 l c.2 h)

theorem options_contexts (opts : List LoggerOption) (h : ∀ o ∈ opts, IsOption o) (l : Logger) :
    (opts.foldl (fun l opt => opt l) l).contexts = l.contexts := by
  induction opts generalizing l with
  | nil => rfl
  | cons o opts ih =>
    rw [List.foldl_cons, ih (fun o' ho' => h o' (List.mem_cons_of_mem _ ho'))]
    rcases h o (List.mem_cons_self _ _) with ⟨w, rfl⟩ | ⟨t, rfl⟩ | rfl <;> rfl

theorem New_contexts (env : Env) (now : Time) (opts : List LoggerOption)
    (h : ∀ o ∈ opts, IsOption o) : (New env now opts).contexts = [] := by
  simp only [New]
  exact options_contexts opts h _

theorem New_covered (env : Env) (now : Time) (opts : List LoggerOption)
    (h : ∀ o ∈ opts, IsOption o) : (New env now opts).Covered := by
  intro d hd
  simp only [Logger.directives, New_contexts env now opts h, List.mem_singleton] at hd
  subst hd
  simp only [New]
  exact newContext_covered _ _ _

/-- C8. In every state reachable from New (with any of the exported options, in any
environment) by the exported methods of Logger and Context, Log and NewContext included,
every metric name in the metric definitions of the default directive or of an extra
directive, and every dimension key in any of their dimension sets, is a key of the shared
bag. -/
theorem C8_names_and_dimension_keys_in_bag (l : Logger) (h : Reachable l) :
    ∀ d ∈ l.directives,
      (∀ md ∈ d.Metrics, md.Name ∈ l.values.keys) ∧
      (∀ s ∈ d.Dimensions, ∀ k ∈ s, k ∈ l.values.keys) := by
  obtain ⟨env, now, opts, calls, hopts, rfl⟩ := h
  exact run_covered _ calls (New_covered env now opts hopts)

theorem loggerReached_options :
    ∀ o ∈ [WithTimestamp { UnixNano := 5000000 }], IsOption o := by
  intro o ho
  rw [List.mem_singleton] at ho
  exact Or.inr (Or.inl ⟨_, ho⟩)

theorem loggerReached_eq :
    loggerReached
      = run (New envLambda sampleTime [WithTimestamp { UnixNano := 5000000 }])
          ((envLambda, .Metric "foo" 33) :: laterCalls ++ [(envEmpty, .Log)]) := by
  delta loggerReached
  exact Eq.refl _

theorem loggerReached_reachable : Reachable loggerReached :=
  ⟨_, _, _, _, loggerReached_options, loggerReached_eq⟩

theorem C8_witness :
    Reachable loggerReached ∧
    loggerReached.directives.length = 2 ∧
    loggerReached.values.keys
      = ["executionEnvironment", "memorySize", "functionVersion", "logStreamId",
         "ServiceType", "ServiceName", "foo", "lat", "CC", "aaa", "x", "y", "_aws"] ∧
    ∀ d ∈ loggerReached.directives,
      (∀ md ∈ d.Metrics, md.Name ∈ loggerReached.values.keys) ∧
      (∀ s ∈ d.Dimensions, ∀ k ∈ s, k ∈ loggerReached.values.keys) :=
  ⟨loggerReached_reachable, by decide, by decide,
   C8_names_and_dimension_keys_in_bag loggerReached loggerReached_reachable⟩

/-! ## C20 -/

/-- C20. The forms without unit are the forms with unit applied to None: on every Logger,
`Metric(name, v)` gives the same Logger as `MetricAs(name, v, None)` and `MetricFloat(name, x)`
the same as `MetricFloatAs(name, x, None)`, and on every Context the same holds for the
Context methods; the definition appended has the unit None, which is the string None of four
letters and not the empty string. -/
theorem C20_plain_forms_are_unit_forms_at_none (l : Logger) (c : Context) (name : String)
    (v : Int) (x : Float64) :
    l.Metric name v = l.MetricAs name v None ∧
    l.MetricFloat name x = l.MetricFloatAs name x None ∧
    c.Metric name v = c.MetricAs name v None ∧
    c.MetricFloat name x = c.MetricFloatAs name x None ∧
    (l.Metric name v).defaultContext.Metrics
      = l.defaultContext.Metrics ++ [{ Name := name, Unit := None }] ∧
    (l.MetricFloat name x).defaultContext.Metrics
      = l.defaultContext.Metrics ++ [{ Name := name, Unit := None }] ∧
    (c.Metric name v).metricDirective.Metrics
      = c.metricDirective.Metrics ++ [{ Name := name, Unit := None }] ∧
    (c.MetricFloat name x).metricDirective.Metrics
      = c.metricDirective.Metrics ++ [{ Name := name, Unit := None }] ∧
    None = "None" ∧ None ≠ "" :=
  ⟨rfl, rfl, rfl, rfl, rfl, rfl, rfl, rfl, rfl, by decide⟩

/-! ## C13 -/

/-- C13. NewContext appends exactly one directive at the end of the extra directives and
returns its position; the default directive and the extra directives that were there are
unchanged. The new directive has the namespace aws-embedded-metrics and no metric definition;
its dimension sets are the one set ServiceName, ServiceType when the Logger does not suppress
the ambient defaults and the function name read by the call is not empty, and none
otherwise. -/
theorem C13_new_context_appends_one_directive (env : Env) (l : Logger) :
    (l.NewContext env).1.contexts
      = l.contexts ++
        [{ Namespace := "aws-embedded-metrics",
           Dimensions :=
             if l.withoutDimensions = false ∧ env "AWS_LAMBDA_FUNCTION_NAME" ≠ "" then
               [["ServiceName", "ServiceType"]]
             else [],
           Metrics := [] }] ∧
    (l.NewContext env).2 = l.contexts.length ∧
    (l.NewContext env).1.contexts.length = l.contexts.length + 1 ∧
    (∀ i, i < l.contexts.length →
      (l.NewContext env).1.contexts.get? i = l.contexts.get? i) ∧
    (l.NewContext env).1.defaultContext = l.defaultContext ∧
    (l.NewContext env).1.timestamp = l.timestamp ∧
    (l.NewContext env).1.out = l.out ∧
    (l.NewContext env).1.withoutDimensions = l.withoutDimensions := by
  have hc : (l.NewContext env).1.contexts
      = l.contexts ++
        [{ Namespace := "aws-embedded-metrics",
           Dimensions :=
             if l.withoutDimensions = false ∧ env "AWS_LAMBDA_FUNCTION_NAME" ≠ "" then
               [["ServiceName", "ServiceType"]]
             else [],
           Metrics := [] }] := by
    simp only [Logger.NewContext, newContext]
    cases hw : l.withoutDimensions
    · by_cases hf : env "AWS_LAMBDA_FUNCTION_NAME" = ""
      · simp [hf]
      · simp [hf]
    · simp
  refine ⟨hc, rfl, ?_, ?_, rfl, rfl, rfl, rfl⟩
  · rw [hc]
    simp
  · intro i hi
    rw [hc, List.get?_eq_getElem?, List.get?_eq_getElem?]
    exact List.getElem?_append_left hi

theorem C13_witness :
    0 < (freshLogger.NewContext envEmpty).1.contexts.length ∧
    ((freshLogger.NewContext envEmpty).1.NewContext envLambda).1.contexts.get? 0
      = (freshLogger.NewContext envEmpty).1.contexts.get? 0 ∧
    ((freshLogger.NewContext envEmpty).1.NewContext envLambda).1.contexts
      = [{ Namespace := "aws-embedded-metrics", Dimensions := [], Metrics := [] },
         { Namespace := "aws-embedded-metrics",
           Dimensions := [["ServiceName", "ServiceType"]], Metrics := [] }] :=
  ⟨by decide,
   (C13_new_context_appends_one_directive envLambda (freshLogger.NewContext envEmpty).1).2.2.2.1
     0 (by decide),
   by decide⟩

/-! ## C17 -/

theorem run_keys (l : Logger) (calls : List (Env × Op)) (k : String) (h : k ∈ l.values.keys) :
    k ∈ (run l calls).values.keys := by
  rw [run_values]
  exact Bag.mem_keys_write _ _ _ h

/-- C17. The key set of the bag never shrinks: a key that is in the bag before a call of any
exported method of the Logger or of one of its Contexts (Namespace, Property, Dimension,
DimensionSet, every Metric form, NewContext, Log), made in any environment, is in the bag
after the call, and so after any sequence of calls. -/
theorem C17_bag_keys_never_shrink (env : Env) (l : Logger) (op : Op) (k : String)
    (h : k ∈ l.values.keys) :
    k ∈ (step env l op).values.keys ∧
    (∀ calls : List (Env × Op), k ∈ (run l calls).values.keys) ∧
    ((step env l op).values.get k).isSome = true :=
  ⟨step_keys env l op k h, fun calls => run_keys l calls k h,
   (Bag.mem_keys_iff _ _).mp (step_keys env l op k h)⟩

theorem C17_witness :
    "foo" ∈ loggerOverwritten.values.keys ∧
    "foo" ∈ (step envLambda loggerOverwritten .Log).values.keys ∧
    (∀ calls : List (Env × Op), "foo" ∈ (run loggerOverwritten calls).values.keys) ∧
    ((step envLambda loggerOverwritten .Log).values.get "foo").isSome = true :=
  ⟨by decide, C17_bag_keys_never_shrink envLambda loggerOverwritten .Log "foo" (by decide)⟩

/-! ## C19 -/

/-- Division by the number of nanoseconds in a millisecond, truncated toward zero: the
quotient times 10^6 lies between zero and the dividend, less than 10^6 away from it. -/
theorem tdiv_millisecond (n : Int) :
    |n - n.tdiv 1000000 * 1000000| < 1000000 ∧
    (0 ≤ n → 0 ≤ n.tdiv 1000000 ∧ n.tdiv 1000000 * 1000000 ≤ n) ∧
    (n ≤ 0 → n.tdiv 1000000 ≤ 0 ∧ n ≤ n.tdiv 1000000 * 1000000) := by
  rcases Int.le_total 0 n with hn | hn
  · have h : n.tdiv 1000000 = n / 1000000 := Int.tdiv_eq_ediv hn (by decide)
    rw [h]
    refine ⟨?_, fun _ => ⟨by omega, by omega⟩, fun _ => ⟨by omega, by omega⟩⟩
    rw [abs_lt]
    constructor <;> omega
  · have hm : 0 ≤ -n := by omega
    have h : n.tdiv 1000000 = -((-n) / 1000000) := by
      have h1 : (-(-n)).tdiv 1000000 = -((-n).tdiv 1000000) := Int.neg_tdiv (-n) 1000000
      rw [Int.neg_neg] at h1
      rw [h1, Int.tdiv_eq_ediv hm (by decide)]
    rw [h]
    refine ⟨?_, fun _ => ⟨by omega, by omega⟩, fun _ => ⟨by omega, by omega⟩⟩
    rw [abs_lt]
    constructor <;> omega

theorem options_timestamp (post : List LoggerOption)
    (h : ∀ o ∈ post, (∃ w, o = WithWriter w) ∨ o = WithoutDimensions) (l : Logger) :
    (post.foldl (fun l opt => opt l) l).timestamp = l.timestamp := by
  induction post generalizing l with
  | nil => rfl
  | cons o post ih =>
    rw [List.foldl_cons, ih (fun o' ho' => h o' (List.mem_cons_of_mem _ ho'))]
    rcases h o (List.mem_cons_self _ _) with ⟨w, rfl⟩ | rfl <;> rfl

/-- C19. `WithTimestamp(t)` sets the timestamp to the nanoseconds `n` of `t` divided by 10^6
and truncated toward zero: the timestamp times 10^6 is less than 10^6 away from `n`, lies
between zero and `n` (so is at most `n` when `n` is not negative), and fits an int64 when `n`
does. Of several WithTimestamp options given to New the last one sets the timestamp: options
before it, of any kind, and WithWriter or WithoutDimensions options after it, do not
matter. -/
theorem C19_with_timestamp_truncates (t : Time) (l : Logger) :
    (WithTimestamp t l).timestamp = t.UnixNano.tdiv 1000000 ∧
    |t.UnixNano - (WithTimestamp t l).timestamp * 1000000| < 1000000 ∧
    (0 ≤ t.UnixNano →
      0 ≤ (WithTimestamp t l).timestamp ∧
      (WithTimestamp t l).timestamp * 1000000 ≤ t.UnixNano) ∧
    (t.UnixNano ≤ 0 →
      (WithTimestamp t l).timestamp ≤ 0 ∧
      t.UnixNano ≤ (WithTimestamp t l).timestamp * 1000000) ∧
    (-2 ^ 63 ≤ t.UnixNano → t.UnixNano < 2 ^ 63 →
      -2 ^ 63 ≤ (WithTimestamp t l).timestamp ∧ (WithTimestamp t l).timestamp < 2 ^ 63) ∧
    (∀ (env : Env) (now : Time) (pre post : List LoggerOption),
      (∀ o ∈ post, (∃ w, o = WithWriter w) ∨ o = WithoutDimensions) →
      (New env now (pre ++ WithTimestamp t :: post)).timestamp = t.UnixNano.tdiv 1000000) := by
  have hts : (WithTimestamp t l).timestamp = t.UnixNano.tdiv 1000000 := rfl
  obtain ⟨h1, h2, h3⟩ := tdiv_millisecond t.UnixNano
  rw [hts]
  refine ⟨rfl, h1, h2, h3, ?_, ?_⟩
  · intro hlo hhi
    rcases Int.le_total 0 t.UnixNano with hn | hn
    · obtain ⟨ha, hb⟩ := h2 hn
      constructor <;> omega
    · obtain ⟨ha, hb⟩ := h3 hn
      constructor <;> omega
  · intro env now pre post hpost
    simp only [New, List.foldl_append, List.foldl_cons]
    rw [options_timestamp post hpost]
    rfl

theorem C19_witness :
    (0 ≤ sampleTime.UnixNano) ∧
    (WithTimestamp sampleTime freshLogger).timestamp = 1700000000123 ∧
    (WithTimestamp { UnixNano := -1500000 } freshLogger).timestamp = -1 ∧
    (0 ≤ (WithTimestamp sampleTime freshLogger).timestamp ∧
      (WithTimestamp sampleTime freshLogger).timestamp * 1000000 ≤ sampleTime.UnixNano) ∧
    (New envEmpty sampleTime
      ([WithTimestamp { UnixNano := 5000000 }] ++ WithTimestamp { UnixNano := 7999999 } ::
        [WithoutDimensions])).timestamp = (7999999 : Int).tdiv 1000000 :=
  ⟨by decide, by decide, by decide,
   (C19_with_timestamp_truncates sampleTime freshLogger).2.2.1 (by decide),
   (C19_with_timestamp_truncates { UnixNano := 7999999 } freshLogger).2.2.2.2.2 envEmpty
     sampleTime [WithTimestamp { UnixNano := 5000000 }] [WithoutDimensions]
     (fun o ho => Or.inr (List.mem_singleton.mp ho))⟩

/-! ## New: the bag and the default directive of a fresh Logger -/

/-- The bag New leaves: the four properties and the two service entries when the ambient
defaults are not suppressed and the function name is set, the trace id when it is sampled. -/
theorem New_values (env : Env) (now : Time) (opts : List LoggerOption) :
    (New env now opts).values
      = (if (New env now opts).withoutDimensions = false ∧ env "AWS_LAMBDA_FUNCTION_NAME" ≠ ""
          then
            [("executionEnvironment", Value.str (env "AWS_EXECUTION_ENV")),
             ("memorySize", Value.str (env "AWS_LAMBDA_FUNCTION_MEMORY_SIZE")),
             ("functionVersion", Value.str (env "AWS_LAMBDA_FUNCTION_VERSION")),
             ("logStreamId", Value.str (env "AWS_LAMBDA_LOG_STREAM_NAME"))]
          else [])
        ++ (if stringsContains (env "_X_AMZN_TRACE_ID") "Sampled=1" = true then
              [("traceId", Value.str (env "_X_AMZN_TRACE_ID"))]
            else [])
        ++ (if (New env now opts).withoutDimensions = false ∧
              env "AWS_LAMBDA_FUNCTION_NAME" ≠ "" then
              [("ServiceType", Value.str "AWS::Lambda::Function"),
               ("ServiceName", Value.str (env "AWS_LAMBDA_FUNCTION_NAME"))]
            else []) := by
  simp only [New, newContext]
  generalize (List.foldl (fun (l : Logger) (opt : LoggerOption) => opt l) _
    opts).withoutDimensions = b
  cases b
  · by_cases hf : env "AWS_LAMBDA_FUNCTION_NAME" = ""
    · by_cases ht : stringsContains (env "_X_AMZN_TRACE_ID") "Sampled=1" = true
      · simp [hf, ht, Bag.set]
      · simp [hf, ht, Bag.set]
    · by_cases ht : stringsContains (env "_X_AMZN_TRACE_ID") "Sampled=1" = true
      · simp [hf, ht, Bag.set]
      · simp [hf, ht, Bag.set]
  · by_cases ht : stringsContains (env "_X_AMZN_TRACE_ID") "Sampled=1" = true
    · simp [ht, Bag.set]
    · simp [ht, Bag.set]

theorem New_dimensions (env : Env) (now : Time) (opts : List LoggerOption) :
    (New env now opts).defaultContext
      = { Namespace := "aws-embedded-metrics",
          Dimensions :=
            if (New env now opts).withoutDimensions = false ∧
                env "AWS_LAMBDA_FUNCTION_NAME" ≠ "" then
              [["ServiceName", "ServiceType"]]
            else [],
          Metrics := [] } := by
  simp only [New, newContext]
  generalize (List.foldl (fun (l : Logger) (opt : LoggerOption) => opt l) _
    opts).withoutDimensions = b
  cases b
  · by_cases hf : env "AWS_LAMBDA_FUNCTION_NAME" = ""
    · simp [hf]
    · simp [hf]
  · simp

theorem options_flag (opts : List LoggerOption) (h : ∀ o ∈ opts, IsOption o) (l : Logger) :
    (opts.foldl (fun l opt => opt l) l).withoutDimensions = true
      ↔ l.withoutDimensions = true ∨ WithoutDimensions ∈ opts := by
  induction opts generalizing l with
  | nil => simp
  | cons o opts ih =>
    rw [List.foldl_cons, ih (fun o' ho' => h o' (List.mem_cons_of_mem _ ho')), List.mem_cons]
    rcases h o (List.mem_cons_self _ _) with ⟨w, rfl⟩ | ⟨t, rfl⟩ | rfl
    · constructor
      · rintro (h1 | h1)
        · exact Or.inl h1
        · exact Or.inr (Or.inr h1)
      · rintro (h1 | h1 | h1)
        · exact Or.inl h1
        · have h2 := congrArg (fun f => (f l).withoutDimensions) h1
          exact Or.inl h2.symm
        · exact Or.inr h1
    · constructor
      · rintro (h1 | h1)
        · exact Or.inl h1
        · exact Or.inr (Or.inr h1)
      · rintro (h1 | h1 | h1)
        · exact Or.inl h1
        · have h2 := congrArg (fun f => (f l).withoutDimensions) h1
          exact Or.inl h2.symm
        · exact Or.inr h1
    · constructor
      · intro _
        exact Or.inr (Or.inl rfl)
      · intro _
        exact Or.inl rfl

/-! ## C15 -/

/-- The model of strings.Contains holds exactly when the text has the substring somewhere. -/
theorem stringsContains_iff (s substr : String) :
    stringsContains s substr = true ↔ ∃ pre post, s.data = pre ++ substr.data ++ post := by
  unfold stringsContains
  rw [List.any_eq_true]
  constructor
  · rintro ⟨i, _, hi⟩
    rw [List.isPrefixOf_iff_prefix] at hi
    obtain ⟨t, ht⟩ := hi
    refine ⟨s.data.take i, t, ?_⟩
    rw [List.append_assoc, ht, List.take_append_drop]
  · rintro ⟨pre, post, h⟩
    refine ⟨pre.length, ?_, ?_⟩
    · rw [List.mem_range, h]
      simp only [List.length_append]
      omega
    · rw [List.isPrefixOf_iff_prefix, h, List.append_assoc, List.drop_left]
      exact ⟨post, rfl⟩

/-- C15. In every environment, for every list of options (so with the ambient defaults
suppressed or not), the bag of the Logger New returns has the key traceId exactly when the
trace id variable contains the text `Sampled=1` somewhere, and then the value under traceId
is the whole value of the variable. -/
theorem C15_trace_id_iff_sampled (env : Env) (now : Time) (opts : List LoggerOption) :
    ((New env now opts).values.get "traceId"
      = if stringsContains (env "_X_AMZN_TRACE_ID") "Sampled=1" = true then
          some (.str (env "_X_AMZN_TRACE_ID"))
        else none) ∧
    ("traceId" ∈ (New env now opts).values.keys
      ↔ ∃ pre post, (env "_X_AMZN_TRACE_ID").data = pre ++ "Sampled=1".data ++ post) ∧
    ((∃ pre post, (env "_X_AMZN_TRACE_ID").data = pre ++ "Sampled=1".data ++ post) →
      (New env now opts).values.get "traceId" = some (.str (env "_X_AMZN_TRACE_ID"))) := by
  have hget : (New env now opts).values.get "traceId"
      = if stringsContains (env "_X_AMZN_TRACE_ID") "Sampled=1" = true then
          some (.str (env "_X_AMZN_TRACE_ID"))
        else none := by
    rw [New_values]
    by_cases hd : (New env now opts).withoutDimensions = false ∧
        env "AWS_LAMBDA_FUNCTION_NAME" ≠ ""
    · by_cases ht : stringsContains (env "_X_AMZN_TRACE_ID") "Sampled=1" = true
      · simp [hd, ht, Bag.get]
      · simp [hd, ht, Bag.get]
    · by_cases ht : stringsContains (env "_X_AMZN_TRACE_ID") "Sampled=1" = true
      · simp [hd, ht, Bag.get]
      · simp [hd, ht, Bag.get]
  refine ⟨hget, ?_, ?_⟩
  · rw [Bag.mem_keys_iff, hget, ← stringsContains_iff]
    by_cases ht : stringsContains (env "_X_AMZN_TRACE_ID") "Sampled=1" = true
    · simp [ht]
    · simp [ht]
  · intro h
    rw [hget, if_pos ((stringsContains_iff _ _).mpr h)]

theorem C15_witness :
    (∃ pre post, (envSampled "_X_AMZN_TRACE_ID").data = pre ++ "Sampled=1".data ++ post) ∧
    (New envSampled sampleTime [WithoutDimensions]).values.get "traceId"
      = some (.str "foo,Sampled=1,bar") ∧
    (New envNotSampled sampleTime []).values.get "traceId" = none ∧
    (New envSampled sampleTime [WithoutDimensions]).values.get "traceId"
      = some (.str (envSampled "_X_AMZN_TRACE_ID")) :=
  ⟨⟨"foo,".data, ",bar".data, by decide⟩, by decide, by decide,
   (C15_trace_id_iff_sampled envSampled sampleTime [WithoutDimensions]).2.2
     ⟨"foo,".data, ",bar".data, by decide⟩⟩

/-! ## C14 -/

/-- C14. In every environment and for every list of options. When the Logger New returns does
not suppress the ambient defaults and the function name variable is not empty, its default
directive has exactly the one dimension set ServiceName, ServiceType, and its bag holds the
function name under ServiceName, the literal `AWS::Lambda::Function` under ServiceType, and
under executionEnvironment, memorySize, functionVersion and logStreamId the values of the four
variables as they are (empty when unset). When it suppresses them, or the function name is
empty, the default directive has no dimension set and none of the six keys is in the bag.
With the exported options, the defaults are suppressed exactly when WithoutDimensions is one
of them. -/
theorem C14_new_ambient_defaults (env : Env) (now : Time) (opts : List LoggerOption) :
    ((New env now opts).withoutDimensions = false ∧ env "AWS_LAMBDA_FUNCTION_NAME" ≠ "" →
      (New env now opts).defaultContext.Dimensions = [["ServiceName", "ServiceType"]] ∧
      (New env now opts).values.get "ServiceName"
        = some (.str (env "AWS_LAMBDA_FUNCTION_NAME")) ∧
      (New env now opts).values.get "ServiceType" = some (.str "AWS::Lambda::Function") ∧
      (New env now opts).values.get "executionEnvironment"
        = some (.str (env "AWS_EXECUTION_ENV")) ∧
      (New env now opts).values.get "memorySize"
        = some (.str (env "AWS_LAMBDA_FUNCTION_MEMORY_SIZE")) ∧
      (New env now opts).values.get "functionVersion"
        = some (.str (env "AWS_LAMBDA_FUNCTION_VERSION")) ∧
      (New env now opts).values.get "logStreamId"
        = some (.str (env "AWS_LAMBDA_LOG_STREAM_NAME"))) ∧
    ((New env now opts).withoutDimensions = true ∨ env "AWS_LAMBDA_FUNCTION_NAME" = "" →
      (New env now opts).defaultContext.Dimensions = [] ∧
      ∀ k ∈ ["ServiceName", "ServiceType", "executionEnvironment", "memorySize",
          "functionVersion", "logStreamId"], k ∉ (New env now opts).values.keys) ∧
    (New env now opts).defaultContext.Namespace = "aws-embedded-metrics" ∧
    (New env now opts).defaultContext.Metrics = [] ∧
    ((∀ o ∈ opts, IsOption o) →
      ((New env now opts).withoutDimensions = true ↔ WithoutDimensions ∈ opts)) := by
  refine ⟨?_, ?_, ?_, ?_, ?_⟩
  · intro hd
    rw [New_dimensions, New_values]
    by_cases ht : stringsContains (env "_X_AMZN_TRACE_ID") "Sampled=1" = true
    · simp [hd, ht, Bag.get]
    · simp [hd, ht, Bag.get]
  · intro hd
    have hd' : ¬ ((New env now opts).withoutDimensions = false ∧
        env "AWS_LAMBDA_FUNCTION_NAME" ≠ "") := by
      rintro ⟨h1, h2⟩
      rcases hd with hd | hd
      · rw [h1] at hd
        exact absurd hd (by decide)
      · exact h2 hd
    rw [New_dimensions, New_values]
    by_cases ht : stringsContains (env "_X_AMZN_TRACE_ID") "Sampled=1" = true
    · simp [hd', ht, Bag.keys]
    · simp [hd', ht, Bag.keys]
  · rw [New_dimensions]
  · rw [New_dimensions]
  · intro hopts
    have h := options_flag opts hopts
      { out := Stdout, timestamp := now.UnixNano.tdiv Millisecond,
        defaultContext := { Namespace := "", Dimensions := [], Metrics := [] },
        contexts := [], values := [], withoutDimensions := false }
    simpa using h

theorem C14_witness :
    ((New envLambda sampleTime []).withoutDimensions = false ∧
      envLambda "AWS_LAMBDA_FUNCTION_NAME" ≠ "") ∧
    ((New envLambda sampleTime [WithoutDimensions]).withoutDimensions = true ∨
      envLambda "AWS_LAMBDA_FUNCTION_NAME" = "") ∧
    ((New envLambda sampleTime []).defaultContext.Dimensions
        = [["ServiceName", "ServiceType"]] ∧
      (New envLambda sampleTime []).values.get "ServiceName" = some (.str "some-func-name") ∧
      (New envLambda sampleTime []).values.get "ServiceType"
        = some (.str "AWS::Lambda::Function") ∧
      (New envLambda sampleTime []).values.get "executionEnvironment"
        = some (.str "golang") ∧
      (New envLambda sampleTime []).values.get "memorySize" = some (.str "128") ∧
      (New envLambda sampleTime []).values.get "functionVersion" = some (.str "1") ∧
      (New envLambda sampleTime []).values.get "logStreamId" = some (.str "log/stream")) ∧
    ((New envLambda sampleTime [WithoutDimensions]).defaultContext.Dimensions = [] ∧
      ∀ k ∈ ["ServiceName", "ServiceType", "executionEnvironment", "memorySize",
          "functionVersion", "logStreamId"],
        k ∉ (New envLambda sampleTime [WithoutDimensions]).values.keys) :=
  ⟨by decide, by decide,
   (C14_new_ambient_defaults envLambda sampleTime []).1 (by decide),
   (C14_new_ambient_defaults envLambda sampleTime [WithoutDimensions]).2.1 (by decide)⟩

/-! ## C11 -/

theorem lastWrite_eq_none (ws : List (String × Value)) (k : String)
    (h : k ∉ ws.map Prod.fst) : lastWrite ws k = none := by
  induction ws with
  | nil => rfl
  | cons w ws ih =>
    obtain ⟨a, b⟩ := w
    simp only [List.map_cons, List.mem_cons, not_or] at h
    have hne : ¬ a = k := fun e => h.1 e.symm
    simp [lastWrite, ih h.2, hne]

theorem lastWrite_of_nodup (ws : List (String × Value)) (hn : (ws.map Prod.fst).Nodup)
    (k : String) (v : Value) (h : (k, v) ∈ ws) : lastWrite ws k = some v := by
  induction ws with
  | nil => simp at h
  | cons w ws ih =>
    obtain ⟨a, b⟩ := w
    simp only [List.map_cons, List.nodup_cons] at hn
    rcases List.mem_cons.mp h with heq | hmem
    · simp only [Prod.mk.injEq] at heq
      obtain ⟨rfl, rfl⟩ := heq
      simp [lastWrite, lastWrite_eq_none ws k hn.1]
    · simp [lastWrite, ih hn.2 hmem]

/-- The bulk loop run over the entries in the order `order`, any listing of the map. -/
theorem bulk_effect {α : Type} (g : α → Value) (unit : MetricUnit) (l : Logger)
    (m order : List (String × α)) (hm : (m.map Prod.fst).Nodup) (ho : order.Perm m) :
    BulkEffect l (order.foldl (fun l e => l.onDefault (fun c => c.put e.1 (g e.2) unit)) l)
      (m.map (fun e => (e.1, g e.2))) unit := by
  rw [bulk_eq]
  have hkeys : (order.map (fun e => (e.1, g e.2))).map Prod.fst = order.map Prod.fst := by
    simp [List.map_map, Function.comp_def]
  have hnodup : ((order.map (fun e => (e.1, g e.2))).map Prod.fst).Nodup := by
    rw [hkeys]
    exact (ho.map Prod.fst).nodup_iff.mpr hm
  refine ⟨⟨order.map (fun e => { Name := e.1, Unit := unit }), rfl, ?_⟩, ?_, ?_,
    rfl, rfl, rfl, rfl, rfl, rfl⟩
  · simp only [List.map_map, Function.comp_def]
    exact ho.map _
  · intro k v hkv
    have hmem : (k, v) ∈ order.map (fun e => (e.1, g e.2)) :=
      ((ho.map (fun e => (e.1, g e.2))).mem_iff).mpr hkv
    simp only [Bag.get_write, Bag.after, lastWrite_of_nodup _ hnodup k v hmem]
  · intro k hk
    have hk' : k ∉ (order.map (fun e => (e.1, g e.2))).map Prod.fst := by
      intro hmem
      apply hk
      exact ((ho.map (fun e => (e.1, g e.2))).map Prod.fst).mem_iff.mp hmem
    simp only [Bag.get_write, Bag.after, lastWrite_eq_none _ k hk']

/-- C11. Let `m` list the entries of a map once each (no key twice) and let `order` be the
order in which the range loop visits them, any permutation of `m`. Then `MetricsAs(m, u)`
keeps the metric definitions of the default directive as a prefix and appends one definition
with name `k` and unit `u` per key `k` of the map, in some order; afterwards the bag holds
`m[k]` under every key `k` of the map and is unchanged elsewhere; nothing else changes. The
same holds for MetricsFloatAs, and for Metrics and MetricsFloat with the unit None, which are
MetricsAs and MetricsFloatAs at None. An empty map changes nothing. -/
theorem C11_bulk_metrics (l : Logger) (u : MetricUnit)
    (m order : List (String × Int)) (mf orderf : List (String × Float64))
    (hm : (m.map Prod.fst).Nodup) (ho : order.Perm m)
    (hmf : (mf.map Prod.fst).Nodup) (hof : orderf.Perm mf) :
    BulkEffect l (l.MetricsAs order u) (m.map (fun e => (e.1, Value.int e.2))) u ∧
    BulkEffect l (l.MetricsFloatAs orderf u) (mf.map (fun e => (e.1, Value.float e.2))) u ∧
    BulkEffect l (l.Metrics order) (m.map (fun e => (e.1, Value.int e.2))) None ∧
    BulkEffect l (l.MetricsFloat orderf) (mf.map (fun e => (e.1, Value.float e.2))) None ∧
    (l.MetricsAs order u).defaultContext.Metrics
      = l.defaultContext.Metrics ++ order.map (fun e => { Name := e.1, Unit := u }) ∧
    (l.MetricsFloatAs orderf u).defaultContext.Metrics
      = l.defaultContext.Metrics ++ orderf.map (fun e => { Name := e.1, Unit := u }) ∧
    l.Metrics order = l.MetricsAs order None ∧
    l.MetricsFloat orderf = l.MetricsFloatAs orderf None ∧
    l.MetricsAs [] u = l ∧ l.MetricsFloatAs [] u = l ∧
    l.Metrics [] = l ∧ l.MetricsFloat [] = l := by
  refine ⟨bulk_effect Value.int u l m order hm ho, bulk_effect Value.float u l mf orderf hmf hof,
    bulk_effect Value.int None l m order hm ho, bulk_effect Value.float None l mf orderf hmf hof,
    ?_, ?_, rfl, rfl, rfl, rfl, rfl, rfl⟩
  · simp [Logger.MetricsAs, bulk_eq]
  · simp [Logger.MetricsFloatAs, bulk_eq]

theorem C11_witness :
    ([("x", (1 : Int)), ("y", 2)].map Prod.fst).Nodup ∧
    [("y", (2 : Int)), ("x", 1)].Perm [("x", 1), ("y", 2)] ∧
    ([("lat", f3366)].map Prod.fst).Nodup ∧
    [("lat", f3366)].Perm [("lat", f3366)] ∧
    BulkEffect loggerDimension (loggerDimension.MetricsAs [("y", 2), ("x", 1)] Count)
      [("x", Value.int 1), ("y", Value.int 2)] Count ∧
    (loggerDimension.MetricsAs [("y", 2), ("x", 1)] Count).defaultContext.Metrics
      = [{ Name := "c", Unit := "None" }, { Name := "y", Unit := "Count" },
         { Name := "x", Unit := "Count" }] ∧
    (loggerDimension.MetricsAs [("y", 2), ("x", 1)] Count).values.get "x"
      = some (Value.int 1) :=
  ⟨by decide, by decide, by decide, List.Perm.refl _,
   (C11_bulk_metrics loggerDimension Count [("x", 1), ("y", 2)] [("y", 2), ("x", 1)]
     [("lat", f3366)] [("lat", f3366)] (by decide) (by decide) (by decide)
     (List.Perm.refl _)).1,
   by decide, by decide⟩

/-! ## C16 -/

/-- Writing the same value under the same key a second time changes nothing. -/
theorem Bag.set_set (m : Bag) (k : String) (v : Value) : (m.set k v).set k v = m.set k v := by
  induction m with
  | nil => simp [Bag.set]
  | cons e m ih =>
    obtain ⟨a, b⟩ := e
    by_cases hak : a = k
    · simp [Bag.set, hak]
    · simp [Bag.set, hak, ih]

theorem Fprintln_written (w : Writer) (buf : Option Json) :
    (Fprintln w buf).written
      = w.written ++
        (match buf with
         | some doc => [Chunk.text doc, Chunk.newline]
         | none => [Chunk.newline]) := by
  cases buf <;> rfl

/-- C16. Two calls of Log with nothing in between write the same thing twice: there is one
sequence of chunks that the first call adds to the sink and that the second call adds again.
It is empty when no directive has a metric definition (nothing both times), and otherwise it
is the marshalled bag followed by a line feed (one document and a line feed when the bag
holds no NaN or infinity). The second call finds under `_aws` the Metadata the first call
put there, writes an equal Metadata over it, and so leaves the bag, and the directives and
the timestamp, as the first call left them. -/
theorem C16_log_twice_writes_the_same (l : Logger) :
    ∃ w : List Chunk,
      l.Log.out.written = l.out.written ++ w ∧
      l.Log.Log.out.written = l.Log.out.written ++ w ∧
      (l.nonEmptyDirectives = [] → w = []) ∧
      (l.nonEmptyDirectives ≠ [] →
        w = (match marshal l.Log.values with
             | some doc => [Chunk.text doc, Chunk.newline]
             | none => [Chunk.newline]) ∧
        l.Log.values.get "_aws"
          = some (.metadata { Timestamp := l.timestamp, Metrics := l.nonEmptyDirectives }) ∧
        l.Log.Log.values.get "_aws"
          = some (.metadata { Timestamp := l.timestamp, Metrics := l.nonEmptyDirectives })) ∧
      (l.nonEmptyDirectives ≠ [] → l.values.allFinite →
        ∃ doc, w = [Chunk.text doc, Chunk.newline]) ∧
      l.Log.Log.values = l.Log.values ∧
      l.Log.Log.defaultContext = l.Log.defaultContext ∧
      l.Log.Log.contexts = l.Log.contexts ∧
      l.Log.Log.timestamp = l.Log.timestamp := by
  by_cases hn : l.nonEmptyDirectives = []
  · have h1 : l.Log = l := Logger.Log_of_nil l hn
    refine ⟨[], ?_, ?_, fun _ => rfl, fun h => absurd hn h, fun h => absurd hn h, ?_, ?_, ?_, ?_⟩
      <;> simp [h1]
  · have h1 := Logger.Log_of_ne_nil l hn
    have hn1 : l.Log.nonEmptyDirectives = l.nonEmptyDirectives := by rw [h1]; rfl
    have ht1 : l.Log.timestamp = l.timestamp := by rw [h1]
    have hv1 : l.Log.values = l.values.set "_aws"
        (.metadata { Timestamp := l.timestamp, Metrics := l.nonEmptyDirectives }) := by rw [h1]
    have hn1' : l.Log.nonEmptyDirectives ≠ [] := by rw [hn1]; exact hn
    have h2 := Logger.Log_of_ne_nil l.Log hn1'
    have hv2 : l.Log.Log.values = l.Log.values := by
      rw [h2]
      simp only [hn1, ht1, hv1, Bag.set_set]
    have ho1 : l.Log.out.written = l.out.written ++
        (match marshal l.Log.values with
         | some doc => [Chunk.text doc, Chunk.newline]
         | none => [Chunk.newline]) := by
      rw [hv1, h1]
      exact Fprintln_written _ _
    have ho2 : l.Log.Log.out.written = l.Log.out.written ++
        (match marshal l.Log.values with
         | some doc => [Chunk.text doc, Chunk.newline]
         | none => [Chunk.newline]) := by
      have h3 : l.Log.Log.out = Fprintln l.Log.out (marshal l.Log.Log.values) := by
        rw [h2]
      rw [h3, hv2]
      exact Fprintln_written _ _
    refine ⟨_, ho1, ho2, fun h => absurd h hn, fun _ => ⟨rfl, ?_, ?_⟩, ?_, hv2, ?_, ?_, ?_⟩
    · rw [hv1, Bag.get_set_self]
    · rw [hv2, hv1, Bag.get_set_self]
    · intro _ hfin
      have hfin' : l.Log.values.allFinite := by
        rw [hv1]
        exact Bag.allFinite_set _ _ _ hfin rfl
      obtain ⟨doc, hdoc, _⟩ := marshal_of_finite _ hfin'
      exact ⟨doc, by rw [hdoc]⟩
    · rw [h2]
    · rw [h2]
    · rw [h2]

theorem C16_witness :
    loggerTwoContexts.nonEmptyDirectives ≠ [] ∧
    loggerTwoContexts.values.allFinite ∧
    loggerTwoContexts.out.written = [] ∧
    ∃ doc,
      loggerTwoContexts.Log.out.written = [Chunk.text doc, Chunk.newline] ∧
      loggerTwoContexts.Log.Log.out.written
        = [Chunk.text doc, Chunk.newline, Chunk.text doc, Chunk.newline] := by
  obtain ⟨w, h1, h2, _, _, h5, _⟩ := C16_log_twice_writes_the_same loggerTwoContexts
  obtain ⟨doc, hdoc⟩ := h5 (by decide) (by decide)
  refine ⟨by decide, by decide, rfl, doc, ?_, ?_⟩
  · rw [h1, hdoc]
    rfl
  · rw [h2, h1, hdoc]
    rfl

/-! ## C18 -/

theorem directive_extends_refl (d : MetricDirective) : d.Extends d :=
  ⟨List.prefix_refl _, List.prefix_refl _⟩

theorem directive_extends_trans {d d' d'' : MetricDirective} (h : d.Extends d')
    (h' : d'.Extends d'') : d.Extends d'' :=
  ⟨h.1.trans h'.1, h.2.trans h'.2⟩

theorem logger_extends_refl (l : Logger) : l.Extends l :=
  ⟨directive_extends_refl _, fun _ d hd => ⟨d, hd, directive_extends_refl d⟩⟩

theorem logger_extends_trans {l l' l'' : Logger} (h : l.Extends l') (h' : l'.Extends l'') :
    l.Extends l'' := by
  refine ⟨directive_extends_trans h.1 h'.1, ?_⟩
  intro i d hd
  obtain ⟨d', hd', he⟩ := h.2 i d hd
  obtain ⟨d'', hd'', he'⟩ := h'.2 i d' hd'
  exact ⟨d'', hd'', directive_extends_trans he he'⟩

theorem Logger.Extends_of_contexts (l l' : Logger)
    (hd : l.defaultContext.Extends l'.defaultContext) (hc : l'.contexts = l.contexts) :
    l.Extends l' := by
  refine ⟨hd, ?_⟩
  intro i d hi
  exact ⟨d, by rw [hc]; exact hi, directive_extends_refl d⟩

theorem Logger.Extends_onDefault (l : Logger) (f : Context → Context)
    (hf : ∀ c : Context, c.metricDirective.Extends (f c).metricDirective) :
    l.Extends (l.onDefault f) :=
  Logger.Extends_of_contexts l _ (hf l.default) rfl

theorem Logger.Extends_onContext (l : Logger) (i : Nat) (f : Context → Context)
    (hf : ∀ c : Context, c.metricDirective.Extends (f c).metricDirective) :
    l.Extends (l.onContext i f) := by
  by_cases hi : i < l.contexts.length
  · rw [Logger.onContext_of_lt l i f hi]
    refine ⟨directive_extends_refl _, ?_⟩
    intro j d hj
    by_cases hij : i = j
    · subst hij
      rw [List.get?_eq_get hi] at hj
      simp only [Option.some.injEq] at hj
      subst hj
      refine ⟨_, ?_, hf { metricDirective := l.contexts.get ⟨i, hi⟩, values := l.values }⟩
      simp only [List.get?_eq_getElem?]
      rw [List.getElem?_set_self hi]
    · refine ⟨d, ?_, directive_extends_refl d⟩
      simp only [List.get?_eq_getElem?] at hj ⊢
      rw [List.getElem?_set_ne hij]
      exact hj
  · rw [Logger.onContext_of_not_lt l i f hi]
    exact logger_extends_refl l

theorem Context.put_extends (name : String) (value : Value) (unit : MetricUnit) (c : Context) :
    c.metricDirective.Extends (c.put name value unit).metricDirective :=
  ⟨List.prefix_refl _, List.prefix_append _ _⟩

theorem Context.Dimension_extends (key value : String) (c : Context) :
    c.metricDirective.Extends (c.Dimension key value).metricDirective :=
  ⟨List.prefix_append _ _, List.prefix_refl _⟩

theorem Context.DimensionSet_extends (dimensions : List emf.Dimension) (c : Context) :
    c.metricDirective.Extends (c.DimensionSet dimensions).metricDirective :=
  ⟨List.prefix_append _ _, List.prefix_refl _⟩

theorem Logger.Extends_bulk {α : Type} (g : α → Value) (unit : MetricUnit)
    (m : List (String × α)) (l : Logger) :
    l.Extends (m.foldl (fun l e => l.onDefault (fun c => c.put e.1 (g e.2) unit)) l) := by
  rw [bulk_eq]
  exact Logger.Extends_of_contexts l _ ⟨List.prefix_refl _, List.prefix_append _ _⟩ rfl

theorem Logger.Log_directives (l : Logger) :
    l.Log.defaultContext = l.defaultContext ∧ l.Log.contexts = l.contexts := by
  by_cases hn : l.nonEmptyDirectives = []
  · rw [Logger.Log_of_nil l hn]
    exact ⟨rfl, rfl⟩
  · rw [Logger.Log_of_ne_nil l hn]
    exact ⟨rfl, rfl⟩

/-- Every call extends every directive that exists before it. -/
theorem step_extends (env : Env) (l : Logger) (op : Op) : l.Extends (step env l op) := by
  cases op with
  | Namespace ns =>
    exact Logger.Extends_onDefault l _ (fun c => directive_extends_refl _)
  | Property key value =>
    exact Logger.Extends_of_contexts l _ (directive_extends_refl _) rfl
  | Dimension key value =>
    exact Logger.Extends_onDefault l (fun c => c.Dimension key value)
      (Context.Dimension_extends key value)
  | DimensionSet dimensions =>
    exact Logger.Extends_onDefault l (fun c => c.DimensionSet dimensions)
      (Context.DimensionSet_extends dimensions)
  | Metric name value => exact Logger.Extends_onDefault l _ (Context.put_extends _ _ _)
  | Metrics m => exact Logger.Extends_bulk Value.int None m l
  | MetricFloat name value => exact Logger.Extends_onDefault l _ (Context.put_extends _ _ _)
  | MetricsFloat m => exact Logger.Extends_bulk Value.float None m l
  | MetricAs name value unit => exact Logger.Extends_onDefault l _ (Context.put_extends _ _ _)
  | MetricsAs m unit => exact Logger.Extends_bulk Value.int unit m l
  | MetricFloatAs name value unit =>
    exact Logger.Extends_onDefault l _ (Context.put_extends _ _ _)
  | MetricsFloatAs m unit => exact Logger.Extends_bulk Value.float unit m l
  | Log =>
    have h := Logger.Log_directives l
    refine Logger.Extends_of_contexts l _ ?_ h.2
    simp only [step]
    rw [h.1]
    exact directive_extends_refl _
  | NewContext =>
    refine ⟨directive_extends_refl _, ?_⟩
    intro i d hi
    refine ⟨d, ?_, directive_extends_refl d⟩
    have hlt : i < l.contexts.length := by
      rw [List.get?_eq_getElem?] at hi
      exact (List.getElem?_eq_some_iff.mp hi).1
    simp only [step, Logger.NewContext, List.get?_eq_getElem?] at hi ⊢
    rw [List.getElem?_append_left hlt]
    exact hi
  | ContextNamespace i ns =>
    exact Logger.Extends_onContext l i _ (fun c => directive_extends_refl _)
  | ContextDimension i key value =>
    exact Logger.Extends_onContext l i (fun c => c.Dimension key value)
      (Context.Dimension_extends key value)
  | ContextDimensionSet i dimensions =>
    exact Logger.Extends_onContext l i (fun c => c.DimensionSet dimensions)
      (Context.DimensionSet_extends dimensions)
  | ContextMetric i name value =>
    exact Logger.Extends_onContext l i _ (Context.put_extends _ _ _)
  | ContextMetricFloat i name value =>
    exact Logger.Extends_onContext l i _ (Context.put_extends _ _ _)
  | ContextMetricAs i name value unit =>
    exact Logger.Extends_onContext l i _ (Context.put_extends _ _ _)
  | ContextMetricFloatAs i name value unit =>
    exact Logger.Extends_onContext l i _ (Context.put_extends _ _ _)

theorem run_extends (l : Logger) (calls : List (Env × Op)) : l.Extends (run l calls) := by
  induction calls generalizing l with
  | nil => exact logger_extends_refl l
  | cons c calls ih => exact logger_extends_trans (step_extends c.1 l c.2) (ih _)

/-- C18. Dimension sets and metric definitions are only appended to: for every call of an
exported method, in any environment, and every directive that exists before the call, the
default one or an extra one, the list of its dimension sets before the call is a prefix of
the list after the call, and so is the list of its metric definitions; the same holds over
any sequence of calls. Log leaves every directive exactly as it is. -/
theorem C18_lists_are_append_only (env : Env) (l : Logger) (op : Op) :
    l.defaultContext.Dimensions <+: (step env l op).defaultContext.Dimensions ∧
    l.defaultContext.Metrics <+: (step env l op).defaultContext.Metrics ∧
    (∀ i d, l.contexts.get? i = some d →
      ∃ d', (step env l op).contexts.get? i = some d' ∧
        d.Dimensions <+: d'.Dimensions ∧ d.Metrics <+: d'.Metrics) ∧
    (step env l .Log).defaultContext = l.defaultContext ∧
    (step env l .Log).contexts = l.contexts ∧
    (∀ calls : List (Env × Op), l.Extends (run l calls)) :=
  ⟨(step_extends env l op).1.1, (step_extends env l op).1.2, (step_extends env l op).2,
   (Logger.Log_directives l).1, (Logger.Log_directives l).2, run_extends l⟩

theorem C18_witness :
    loggerTwoContexts.contexts.get? 1
      = some { Namespace := "galaxy", Dimensions := [],
               Metrics := [{ Name := "bar", Unit := "Count" }] } ∧
    (step envLambda loggerTwoContexts (.ContextMetric 1 "baz" 7)).contexts.get? 1
      = some { Namespace := "galaxy", Dimensions := [],
               Metrics := [{ Name := "bar", Unit := "Count" },
                           { Name := "baz", Unit := "None" }] } ∧
    ∃ d', (step envLambda loggerTwoContexts (.ContextMetric 1 "baz" 7)).contexts.get? 1
        = some d' ∧
      ([] : List DimensionSet) <+: d'.Dimensions ∧
      [{ Name := "bar", Unit := "Count" }] <+: d'.Metrics :=
  ⟨by decide, by decide,
   (C18_lists_are_append_only envLambda loggerTwoContexts (.ContextMetric 1 "baz" 7)).2.2.1 1
     { Namespace := "galaxy", Dimensions := [], Metrics := [{ Name := "bar", Unit := "Count" }] }
     (by decide)⟩

/-! ## C12 -/

/-- What a method call on the Context number `i` leaves alone. -/
theorem Logger.onContext_frame (l : Logger) (i : Nat) (f : Context → Context) :
    (l.onContext i f).defaultContext = l.defaultContext ∧
    (∀ j, j ≠ i → (l.onContext i f).contexts.get? j = l.contexts.get? j) ∧
    (l.onContext i f).contexts.length = l.contexts.length ∧
    (l.onContext i f).timestamp = l.timestamp ∧
    (l.onContext i f).out = l.out ∧
    (l.onContext i f).withoutDimensions = l.withoutDimensions := by
  by_cases hi : i < l.contexts.length
  · rw [Logger.onContext_of_lt l i f hi]
    refine ⟨rfl, ?_, ?_, rfl, rfl, rfl⟩
    · intro j hj
      simp only [List.get?_eq_getElem?]
      exact List.getElem?_set_ne (fun e => hj e.symm)
    · simp
  · rw [Logger.onContext_of_not_lt l i f hi]
    exact ⟨rfl, fun _ _ => rfl, rfl, rfl, rfl, rfl⟩

/-- The general shape of C12: the Context method `f` called on the Context number `i` does
to that Context and to the bag what `f` called on the default Context does to the default
directive and to the bag, when the directive of `f`'s result depends only on the directive
it is called on and the bag of the result only on the bag. -/
theorem Logger.onContext_mirror (l : Logger) (i : Nat) (hi : i < l.contexts.length)
    (f : Context → Context)
    (hv : ∀ c c' : Context, c.values = c'.values → (f c).values = (f c').values) :
    (l.onContext i f).contexts
      = l.contexts.set i
          (({ l with defaultContext := l.contexts.get ⟨i, hi⟩ } : Logger).onDefault
            f).defaultContext ∧
    (l.onContext i f).values = (l.onDefault f).values ∧
    (l.onDefault f).contexts = l.contexts := by
  rw [Logger.onContext_of_lt l i f hi]
  exact ⟨rfl, hv _ _ rfl, rfl⟩

/-- C12. Let `cop` be the Context method of the same name and arguments as the Logger method
`op` (Namespace, Dimension, DimensionSet, Metric, MetricFloat, MetricAs, MetricFloatAs),
called on the Context number `i` of the Logger. The call of `cop` puts in place of the
directive of that Context exactly the directive that `op` makes of it when it is the default
directive, and leaves the bag exactly as `op` leaves it; the default directive, the directive
of every other Context, the number of Contexts, the timestamp and the sink are unchanged. The
Logger method, for its part, changes no Context. -/
theorem C12_context_methods_mirror_logger_methods (env : Env) (l : Logger) (i : Nat)
    (hi : i < l.contexts.length) (op cop : Op) (h : Op.onContext i op = some cop) :
    (step env l cop).contexts
      = l.contexts.set i
          (step env { l with defaultContext := l.contexts.get ⟨i, hi⟩ } op).defaultContext ∧
    (step env l cop).values = (step env l op).values ∧
    (step env l op).contexts = l.contexts ∧
    (step env l cop).defaultContext = l.defaultContext ∧
    (∀ j, j ≠ i → (step env l cop).contexts.get? j = l.contexts.get? j) ∧
    (step env l cop).contexts.length = l.contexts.length ∧
    (step env l cop).timestamp = l.timestamp ∧
    (step env l cop).out = l.out ∧
    (step env l cop).withoutDimensions = l.withoutDimensions := by
  have key : ∀ f : Context → Context,
      (∀ c c' : Context, c.values = c'.values → (f c).values = (f c').values) →
      (step env l op).defaultContext = (l.onDefault f).defaultContext →
      (step env { l with defaultContext := l.contexts.get ⟨i, hi⟩ } op).defaultContext
        = (({ l with defaultContext := l.contexts.get ⟨i, hi⟩ } : Logger).onDefault
            f).defaultContext →
      (step env l op).values = (l.onDefault f).values →
      (step env l op).contexts = l.contexts →
      step env l cop = l.onContext i f →
      (step env l cop).contexts
        = l.contexts.set i
            (step env { l with defaultContext := l.contexts.get ⟨i, hi⟩ } op).defaultContext ∧
      (step env l cop).values = (step env l op).values ∧
      (step env l op).contexts = l.contexts ∧
      (step env l cop).defaultContext = l.defaultContext ∧
      (∀ j, j ≠ i → (step env l cop).contexts.get? j = l.contexts.get? j) ∧
      (step env l cop).contexts.length = l.contexts.length ∧
      (step env l cop).timestamp = l.timestamp ∧
      (step env l cop).out = l.out ∧
      (step env l cop).withoutDimensions = l.withoutDimensions := by
    intro f hv _ h2 h3 h4 h5
    obtain ⟨m1, m2, _⟩ := Logger.onContext_mirror l i hi f hv
    obtain ⟨f1, f2, f3, f4, f5, f6⟩ := Logger.onContext_frame l i f
    rw [h5, h2, h3]
    exact ⟨m1, m2, h4, f1, f2, f3, f4, f5, f6⟩
  cases op with
  | Namespace ns =>
    simp only [Op.onContext, Option.some.injEq] at h
    subst h
    exact key (fun c => c.Namespace ns) (fun c c' hc => hc) rfl rfl rfl rfl rfl
  | Dimension key' value =>
    simp only [Op.onContext, Option.some.injEq] at h
    subst h
    exact key (fun c => c.Dimension key' value)
      (fun c c' hc => by simp only [Context.Dimension, hc]) rfl rfl rfl rfl rfl
  | DimensionSet dimensions =>
    simp only [Op.onContext, Option.some.injEq] at h
    subst h
    exact key (fun c => c.DimensionSet dimensions)
      (fun c c' hc => by simp only [Context.DimensionSet, hc]) rfl rfl rfl rfl rfl
  | Metric name value =>
    simp only [Op.onContext, Option.some.injEq] at h
    subst h
    exact key (fun c => c.Metric name value)
      (fun c c' hc => by simp only [Context.Metric, Context.put, hc]) rfl rfl rfl rfl rfl
  | MetricFloat name value =>
    simp only [Op.onContext, Option.some.injEq] at h
    subst h
    exact key (fun c => c.MetricFloat name value)
      (fun c c' hc => by simp only [Context.MetricFloat, Context.put, hc]) rfl rfl rfl rfl rfl
  | MetricAs name value unit =>
    simp only [Op.onContext, Option.some.injEq] at h
    subst h
    exact key (fun c => c.MetricAs name value unit)
      (fun c c' hc => by simp only [Context.MetricAs, Context.put, hc]) rfl rfl rfl rfl rfl
  | MetricFloatAs name value unit =>
    simp only [Op.onContext, Option.some.injEq] at h
    subst h
    exact key (fun c => c.MetricFloatAs name value unit)
      (fun c c' hc => by simp only [Context.MetricFloatAs, Context.put, hc]) rfl rfl rfl rfl rfl
  | Property _ _ => simp [Op.onContext] at h
  | Metrics _ => simp [Op.onContext] at h
  | MetricsFloat _ => simp [Op.onContext] at h
  | MetricsAs _ _ => simp [Op.onContext] at h
  | MetricsFloatAs _ _ => simp [Op.onContext] at h
  | Log => simp [Op.onContext] at h
  | NewContext => simp [Op.onContext] at h
  | ContextNamespace _ _ => simp [Op.onContext] at h
  | ContextDimension _ _ _ => simp [Op.onContext] at h
  | ContextDimensionSet _ _ => simp [Op.onContext] at h
  | ContextMetric _ _ _ => simp [Op.onContext] at h
  | ContextMetricFloat _ _ _ => simp [Op.onContext] at h
  | ContextMetricAs _ _ _ _ => simp [Op.onContext] at h
  | ContextMetricFloatAs _ _ _ _ => simp [Op.onContext] at h

theorem C12_witness :
    0 < loggerCustomContext.contexts.length ∧
    Op.onContext 0
        (.DimensionSet [{ Key := "gg", Value := "hh" }, { Key := "kk", Value := "jj" }])
      = some
        (.ContextDimensionSet 0 [{ Key := "gg", Value := "hh" }, { Key := "kk", Value := "jj" }]) ∧
    (step envEmpty loggerCustomContext
      (.ContextDimensionSet 0
        [{ Key := "gg", Value := "hh" }, { Key := "kk", Value := "jj" }])).contexts
      = [{ Namespace := "aws-embedded-metrics", Dimensions := [["CC"], ["gg", "kk"]],
           Metrics := [] }] ∧
    (step envEmpty loggerCustomContext
      (.ContextDimensionSet 0
        [{ Key := "gg", Value := "hh" }, { Key := "kk", Value := "jj" }])).defaultContext
      = { Namespace := "aws-embedded-metrics", Dimensions := [["AA"]],
          Metrics := [{ Name := "bar", Unit := "Bytes/Second" }] } ∧
    (step envEmpty loggerCustomContext
      (.ContextDimensionSet 0
        [{ Key := "gg", Value := "hh" }, { Key := "kk", Value := "jj" }])).values
      = (step envEmpty loggerCustomContext
          (.DimensionSet [{ Key := "gg", Value := "hh" }, { Key := "kk", Value := "jj" }])).values :=
  ⟨by decide, rfl, by decide, by decide,
   (C12_context_methods_mirror_logger_methods envEmpty loggerCustomContext 0 (by decide)
     (.DimensionSet [{ Key := "gg", Value := "hh" }, { Key := "kk", Value := "jj" }])
     (.ContextDimensionSet 0 [{ Key := "gg", Value := "hh" }, { Key := "kk", Value := "jj" }])
     rfl).2.1⟩

/-! ## C21 -/

/-- Writing under a key the value the bag already holds there changes nothing. -/
theorem Bag.set_of_get (m : Bag) (k : String) (v : Value) (h : m.get k = some v) :
    m.set k v = m := by
  induction m with
  | nil => simp [Bag.get] at h
  | cons e m ih =>
    obtain ⟨a, b⟩ := e
    by_cases hak : a = k
    · simp only [Bag.get, hak, if_true, Option.some.injEq] at h
      simp [Bag.set, hak, h]
    · simp only [Bag.get, hak, if_false] at h
      simp [Bag.set, hak, ih h]

/-- The bootstrap of newContext, run again in the same environment on the bag it produced,
leaves that bag as it is. -/
theorem newContext_values_idem (env : Env) (values : Bag) (withoutDimensions : Bool) :
    (newContext env (newContext env values withoutDimensions).values withoutDimensions).values
      = (newContext env values withoutDimensions).values := by
  cases withoutDimensions
  · by_cases hf : env "AWS_LAMBDA_FUNCTION_NAME" = ""
    · simp [newContext, hf]
    · have h1 : ((values.set "ServiceType" (.str "AWS::Lambda::Function")).set "ServiceName"
          (.str (env "AWS_LAMBDA_FUNCTION_NAME"))).get "ServiceType"
            = some (.str "AWS::Lambda::Function") := by
        rw [Bag.get_set_other _ _ _ _ (by decide), Bag.get_set_self]
      have h2 : ((values.set "ServiceType" (.str "AWS::Lambda::Function")).set "ServiceName"
          (.str (env "AWS_LAMBDA_FUNCTION_NAME"))).get "ServiceName"
            = some (.str (env "AWS_LAMBDA_FUNCTION_NAME")) := Bag.get_set_self _ _ _
      simp only [newContext, Bool.not_false, hf, bne_iff_ne, ne_eq, not_false_eq_true, if_true]
      rw [Bag.set_of_get _ _ _ h1, Bag.set_of_get _ _ _ h2]
  · simp [newContext]

/-- C21. In one and the same environment the bootstrap that NewContext applies again is
idempotent on the bag: on every Logger, the bag after two NewContext calls in a row is the
bag after the first of them, and on the Logger New has just returned a NewContext call
leaves the bag exactly as New left it. (Each call still appends a directive of its own.) -/
theorem C21_new_context_idempotent_on_bag (env : Env) (l : Logger) (now : Time)
    (opts : List LoggerOption) :
    ((l.NewContext env).1.NewContext env).1.values = (l.NewContext env).1.values ∧
    ((New env now opts).NewContext env).1.values = (New env now opts).values ∧
    (∀ k, ((l.NewContext env).1.NewContext env).1.values.get k
      = (l.NewContext env).1.values.get k) ∧
    ((l.NewContext env).1.NewContext env).1.contexts.length = l.contexts.length + 2 := by
  have h1 : ((l.NewContext env).1.NewContext env).1.values = (l.NewContext env).1.values :=
    newContext_values_idem env l.values l.withoutDimensions
  refine ⟨h1, ?_, fun k => by rw [h1], ?_⟩
  · exact newContext_values_idem env _ _
  · simp [Logger.NewContext]

theorem C21_witness :
    (New envLambda sampleTime []).values.get "ServiceName" = some (.str "some-func-name") ∧
    (New envLambda sampleTime []).values.get "ServiceType"
      = some (.str "AWS::Lambda::Function") ∧
    ((New envLambda sampleTime []).NewContext envLambda).1.values
      = (New envLambda sampleTime []).values :=
  ⟨by decide, by decide,
   (C21_new_context_idempotent_on_bag envLambda freshLogger sampleTime []).2.1⟩

/-! ## C22 -/

/-- C22. Log changes no field of the Logger but the bag, and of the bag only the key `_aws`.
When some directive has a metric definition, the bag afterwards holds under `_aws` the
Metadata made of the timestamp of the Logger and of the directives that have some metric
definitions, in order, whatever a caller had stored there; it reads as before under every
other key and has lost no key; the default directive, the extra directives and their list,
the timestamp and the ambient-defaults flag are unchanged, the writer is the same one, and
what it had received is still there, before what Log wrote. When no directive has any metric
definitions, the whole Logger, bag and sink included, is unchanged. -/
theorem C22_log_changes_only_the_reserved_key (l : Logger) :
    (l.nonEmptyDirectives ≠ [] →
      l.Log.values.get "_aws"
        = some (.metadata { Timestamp := l.timestamp, Metrics := l.nonEmptyDirectives }) ∧
      (∀ k, k ≠ "_aws" → l.Log.values.get k = l.values.get k) ∧
      (∀ k, k ∈ l.Log.values.keys ↔ k = "_aws" ∨ k ∈ l.values.keys)) ∧
    (l.nonEmptyDirectives = [] → l.Log = l) ∧
    (l.nonEmptyDirectives ≠ [] ↔ ∃ d ∈ l.directives, d.Metrics ≠ []) ∧
    l.Log.defaultContext = l.defaultContext ∧
    l.Log.contexts = l.contexts ∧
    l.Log.timestamp = l.timestamp ∧
    l.Log.withoutDimensions = l.withoutDimensions ∧
    l.Log.out.name = l.out.name ∧
    l.out.written <+: l.Log.out.written := by
  refine ⟨?_, Logger.Log_of_nil l, ?_, (Logger.Log_directives l).1, (Logger.Log_directives l).2,
    ?_, ?_, ?_, ?_⟩
  · intro hn
    have hv : l.Log.values = l.values.set "_aws"
        (.metadata { Timestamp := l.timestamp, Metrics := l.nonEmptyDirectives }) := by
      rw [Logger.Log_of_ne_nil l hn]
    refine ⟨?_, ?_, ?_⟩
    · rw [hv, Bag.get_set_self]
    · intro k hk
      rw [hv, Bag.get_set_other _ _ _ _ hk]
    · intro k
      rw [hv, Bag.mem_keys_iff, Bag.mem_keys_iff, Bag.get_set]
      by_cases hk : "_aws" = k
      · simp [hk]
      · have hk' : ¬ k = "_aws" := fun e => hk e.symm
        simp [hk, hk']
  · constructor
    · intro hn
      by_contra hex
      apply hn
      apply Logger.nonEmptyDirectives_eq_nil
      · by_contra h0
        exact hex ⟨l.defaultContext, List.mem_cons_self _ _, h0⟩
      · intro d hd
        by_contra hm
        exact hex ⟨d, List.mem_cons_of_mem _ hd, hm⟩
    · exact Logger.nonEmptyDirectives_ne_nil l
  · by_cases hn : l.nonEmptyDirectives = []
    · rw [Logger.Log_of_nil l hn]
    · rw [Logger.Log_of_ne_nil l hn]
  · by_cases hn : l.nonEmptyDirectives = []
    · rw [Logger.Log_of_nil l hn]
    · rw [Logger.Log_of_ne_nil l hn]
  · by_cases hn : l.nonEmptyDirectives = []
    · rw [Logger.Log_of_nil l hn]
    · rw [Logger.Log_of_ne_nil l hn]
      cases marshal (l.values.set "_aws"
        (.metadata { Timestamp := l.timestamp, Metrics := l.nonEmptyDirectives })) <;> rfl
  · by_cases hn : l.nonEmptyDirectives = []
    · rw [Logger.Log_of_nil l hn]
    · rw [Logger.Log_of_ne_nil l hn, Fprintln_written]
      exact List.prefix_append _ _

theorem C22_witness :
    loggerReservedKey.nonEmptyDirectives ≠ [] ∧
    loggerReservedKey.values.get "_aws" = some (.str "mine") ∧
    loggerReservedKey.Log.values.get "foo" = some (.int 33) ∧
    loggerNoMetrics.nonEmptyDirectives = [] ∧
    (loggerReservedKey.Log.values.get "_aws"
        = some (.metadata
            { Timestamp := 1700000000123,
              Metrics := [{ Namespace := "aws-embedded-metrics", Dimensions := [],
                            Metrics := [{ Name := "foo", Unit := "None" }] }] }) ∧
      (∀ k, k ≠ "_aws" → loggerReservedKey.Log.values.get k = loggerReservedKey.values.get k) ∧
      (∀ k, k ∈ loggerReservedKey.Log.values.keys
        ↔ k = "_aws" ∨ k ∈ loggerReservedKey.values.keys)) ∧
    loggerNoMetrics.Log = loggerNoMetrics :=
  ⟨by decide, by decide, by decide, by decide,
   (C22_log_changes_only_the_reserved_key loggerReservedKey).1 (by decide),
   (C22_log_changes_only_the_reserved_key loggerNoMetrics).2.1 (by decide)⟩

end emf
